import Mathlib

/- Shallow embedding of src/backend/main.py (PigChain Route Optimizer).

   Python floats are modelled over an arbitrary linear ordered field K with a
   floor function; witnesses instantiate K at ℚ (executable), while the
   trigonometric haversine function lives at ℝ.  Head counts are ℕ (all request
   integers are validated non-negative by the pydantic models).

   Two collaborators are external (spec section 6):
   - the OR-Tools routing solver: modelled as an oracle that, for each planning
     day, returns `none` (no solution: the source falls back to the greedy
     assignment) or `some vehicles`, the per-vehicle node sequences that the
     source walks in `optimize_routes_for_day` (node 0 is the depot, node i+1
     the i-th active farm);
   - the geodesic distance function `haversine_distance`: the planning and
     accounting code is parametric in a distance function `dist`; the real
     haversine formula is defined below over ℝ exactly as in the source.

   The wall clock (plan id, start date) is external; day records carry the day
   offset from the start date instead of a formatted date string. -/

namespace PigChain

/- ============================ data model ============================ -/

structure Location (K : Type) where
  lat : K
  lng : K
deriving DecidableEq

structure Farm (K : Type) where
  id : String
  name : String
  location : Location K
  available_pigs : ℕ
  max_capacity : ℕ
  avg_weight_kg : Option K
deriving DecidableEq

structure Slaughterhouse (K : Type) where
  id : String
  name : String
  location : Location K
  daily_capacity : ℕ
  max_capacity : ℕ
deriving DecidableEq

structure OptimizationRequest (K : Type) where
  farms : List (Farm K)
  slaughterhouse : Slaughterhouse K
  truck_capacity : ℕ
  num_days : ℕ
  planning_days_per_week : ℕ
  avg_pig_weight_kg : K
  price_per_kg : K
  truck_cost_per_week : K
  fuel_cost_per_km : K
  cost_per_km : Option K
  weekly_weight_gain_kg : K
  weekly_decline_rate : K
deriving DecidableEq

structure RouteStop where
  id : String
  pigs : ℕ
deriving DecidableEq

structure TruckRoute (K : Type) where
  id : ℕ
  route : List RouteStop
  distance_km : K
deriving DecidableEq

structure OptimizationDay (K : Type) where
  timedatestamp : ℕ
  totalKg : K
  totalEuros : K
  trucks : List (TruckRoute K)
  totalDistanceKm : K
  fuelCostEuros : K
  truckCostEuros : K
  netProfitEuros : K
deriving DecidableEq

structure Summary (K : Type) where
  total_days : ℕ
  total_revenue_euros : K
  total_fuel_cost_euros : K
  total_truck_cost_euros : K
  total_costs_euros : K
  total_net_profit_euros : K
  profit_margin_percent : K
  total_pigs_collected : ℕ
  total_distance_km : K
  max_trucks_per_day : ℕ
  avg_trucks_per_day : K
  cost_per_pig_euros : K
  revenue_per_pig_euros : K
deriving DecidableEq

structure OptimizationResponse (K : Type) where
  days : List (OptimizationDay K)
  summary : Summary K
deriving DecidableEq

variable {K : Type} [LinearOrderedField K] [FloorRing K]

/- Python's round(x, 2): round half to even at two decimal places. -/
def round2 (x : K) : K :=
  let y := 100 * x
  let f : ℤ := Int.floor y
  let r := y - (f : K)
  if r < 1 / 2 then (f : K) / 100
  else if 1 / 2 < r then ((f : K) + 1) / 100
  else if f % 2 = 0 then (f : K) / 100 else ((f : K) + 1) / 100

/- haversine_distance (main.py lines 148-172), with math.radians x = x*pi/180. -/
noncomputable def haversine_distance (lat1 lon1 lat2 lon2 : ℝ) : ℝ :=
  let R : ℝ := 6371
  let lat1_rad := lat1 * Real.pi / 180
  let lat2_rad := lat2 * Real.pi / 180
  let delta_lat := (lat2 - lat1) * Real.pi / 180
  let delta_lon := (lon2 - lon1) * Real.pi / 180
  let a := Real.sin (delta_lat / 2) ^ 2 +
    Real.cos lat1_rad * Real.cos lat2_rad * Real.sin (delta_lon / 2) ^ 2
  let c := 2 * Real.arcsin (Real.sqrt a)
  R * c

noncomputable def haversineLoc (a b : Location ℝ) : ℝ :=
  haversine_distance a.lat a.lng b.lat b.lng

/- compute_weight_penalty (main.py lines 205-234).  The source call sites use
   the default arguments ideal_min=105, ideal_max=115, moderate_penalty=0.15,
   extreme_penalty=0.20; they are passed explicitly here. -/
def compute_weight_penalty (avg_weight_kg ideal_min ideal_max moderate_penalty extreme_penalty : K) : K :=
  if avg_weight_kg ≤ 0 then 0
  else if ideal_min ≤ avg_weight_kg ∧ avg_weight_kg ≤ ideal_max then 0
  else if avg_weight_kg < 100 ∨ 120 < avg_weight_kg then extreme_penalty
  else moderate_penalty

/- ================== solver-path result extraction ==================
   main.py lines 356-419.  create_distance_matrix stores km*1000 with a zero
   diagonal; the extraction walk adds raw (float) matrix entries, so the
   metre/km conversion is carried literally.  An out-of-range node index would
   raise IndexError in Python (the request would fail); the solver contract
   guarantees nodes index the location list, which theorems assume where it
   matters. -/

def matrixMeters (dist : Location K → Location K → K) (locs : List (Location K)) (i j : ℕ) : K :=
  if i = j then 0
  else
    match locs.get? i, locs.get? j with
    | some a, some b => dist a b * 1000
    | _, _ => 0

structure ExtractState (K : Type) where
  route_stops : List RouteStop
  route_load : ℕ
  route_distance : K
  previous_node : ℕ
  stops_count : ℕ
  total_collected : ℕ

/- One iteration of the `while not routing.IsEnd(index)` walk (lines 369-404). -/
def extractNodeStep (dist : Location K → Location K → K) (active_farms : List (Farm K))
    (locs : List (Location K)) (truck_capacity daily_capacity max_stops_per_route : ℕ)
    (st : ExtractState K) (node_index : ℕ) : ExtractState K :=
  let remaining_daily_capacity := daily_capacity - st.total_collected
  let route_distance :=
    if st.previous_node ≠ node_index then
      st.route_distance + matrixMeters dist locs st.previous_node node_index
    else st.route_distance
  if 0 < node_index then
    match active_farms.get? (node_index - 1) with
    | some farm =>
      if st.stops_count < max_stops_per_route then
        let pigs_to_collect :=
          min farm.available_pigs (min (truck_capacity - st.route_load) remaining_daily_capacity)
        if 0 < pigs_to_collect then
          { route_stops := st.route_stops ++ [⟨farm.id, pigs_to_collect⟩],
            route_load := st.route_load + pigs_to_collect,
            route_distance := route_distance,
            previous_node := node_index,
            stops_count := st.stops_count + 1,
            total_collected := st.total_collected + pigs_to_collect }
        else { st with route_distance := route_distance, previous_node := node_index }
      else { st with route_distance := route_distance, previous_node := node_index }
    | none => { st with route_distance := route_distance, previous_node := node_index }
  else { st with route_distance := route_distance, previous_node := node_index }

/- Walk one vehicle's node sequence, then add the return leg to the depot. -/
def extractVehicle (dist : Location K → Location K → K) (active_farms : List (Farm K))
    (locs : List (Location K)) (truck_capacity daily_capacity max_stops_per_route : ℕ)
    (total_collected0 : ℕ) (nodes : List ℕ) : List RouteStop × K × ℕ :=
  let st := nodes.foldl
    (extractNodeStep dist active_farms locs truck_capacity daily_capacity max_stops_per_route)
    { route_stops := [], route_load := 0, route_distance := 0, previous_node := 0,
      stops_count := 0, total_collected := total_collected0 }
  let route_distance := st.route_distance + matrixMeters dist locs st.previous_node 0
  (st.route_stops, route_distance, st.total_collected)

/- The `for vehicle_id in range(num_vehicles)` loop (lines 361-417): only
   non-empty routes are emitted, with 1-based vehicle ids; the per-day total
   distance accumulates the un-rounded km values. -/
def extractRoutesGo (dist : Location K → Location K → K) (active_farms : List (Farm K))
    (locs : List (Location K)) (truck_capacity daily_capacity max_stops_per_route : ℕ) :
    List (List ℕ) → ℕ → ℕ → List (TruckRoute K) → K → List (TruckRoute K) × K × ℕ
  | [], _, total_collected, acc, acc_dist => (acc, acc_dist, total_collected)
  | nodes :: rest, vehicle_id, total_collected, acc, acc_dist =>
    let r := extractVehicle dist active_farms locs truck_capacity daily_capacity
      max_stops_per_route total_collected nodes
    if r.1.isEmpty then
      extractRoutesGo dist active_farms locs truck_capacity daily_capacity max_stops_per_route
        rest (vehicle_id + 1) r.2.2 acc acc_dist
    else
      let distance_km := r.2.1 / 1000
      extractRoutesGo dist active_farms locs truck_capacity daily_capacity max_stops_per_route
        rest (vehicle_id + 1) r.2.2
        (acc ++ [{ id := vehicle_id + 1, route := r.1, distance_km := round2 distance_km }])
        (acc_dist + distance_km)

def extract_solver_routes (dist : Location K → Location K → K) (active_farms : List (Farm K))
    (slaughterhouse_location : Location K) (truck_capacity daily_capacity max_stops_per_route : ℕ)
    (vehicles : List (List ℕ)) : List (TruckRoute K) × K :=
  let locs := slaughterhouse_location :: active_farms.map (·.location)
  let r := extractRoutesGo dist active_farms locs truck_capacity daily_capacity
    max_stops_per_route vehicles 0 0 [] 0
  (r.1, r.2.1)

/- ======================== greedy fallback ========================
   greedy_route_assignment (main.py lines 422-544). -/

structure GreedyState (K : Type) where
  trucks : List (TruckRoute K)
  current_truck_id : ℕ
  current_route : List RouteStop
  current_route_distance_km : K
  current_load : ℕ
  total_collected : ℕ
  total_distance_km : K

def findFarmById (farms : List (Farm K)) (i : String) : Option (Farm K) :=
  farms.find? (fun f => f.id = i)

/- Lines 472-496: append a stop, adding the leg from the previous stop's farm
   (looked up by id in the farm list, as `next(f for f in farms ...)` does) or
   from the slaughterhouse when the route is empty.  The `none` branches are
   unreachable: every stop id is the id of a farm in the list. -/
def greedyAddStop (dist : Location K → Location K → K) (farms : List (Farm K))
    (slaughterhouse_location : Location K) (farm : Farm K) (pigs_to_collect : ℕ)
    (st : GreedyState K) : GreedyState K :=
  let leg :=
    match st.current_route.getLast? with
    | some last_stop =>
      match findFarmById farms last_stop.id with
      | some last_stop_farm => dist last_stop_farm.location farm.location
      | none => 0
    | none => dist slaughterhouse_location farm.location
  { st with
    current_route := st.current_route ++ [⟨farm.id, pigs_to_collect⟩],
    current_route_distance_km := st.current_route_distance_km + leg,
    current_load := st.current_load + pigs_to_collect,
    total_collected := st.total_collected + pigs_to_collect }

/- Lines 499-519 (and the final 528-542): close the current route, adding the
   return leg to the slaughterhouse, emitting the truck with its distance
   rounded to 2 decimals, and resetting route, distance and load. -/
def closeCurrentRoute (dist : Location K → Location K → K) (farms : List (Farm K))
    (slaughterhouse_location : Location K) (st : GreedyState K) : GreedyState K :=
  if st.current_route.isEmpty then
    { st with current_route := [], current_route_distance_km := 0, current_load := 0 }
  else
    let return_leg :=
      match st.current_route.getLast? with
      | some last_stop =>
        match findFarmById farms last_stop.id with
        | some last_farm => dist last_farm.location slaughterhouse_location
        | none => 0
      | none => 0
    let d := st.current_route_distance_km + return_leg
    { trucks := st.trucks ++
      [{ id := st.current_truck_id, route := st.current_route, distance_km := round2 d }],
      current_truck_id := st.current_truck_id + 1,
      current_route := [], current_route_distance_km := 0, current_load := 0,
      total_collected := st.total_collected,
      total_distance_km := st.total_distance_km + d }

/- The inner `while pigs_available > 0 and total_collected < daily_capacity`
   loop (lines 465-522), by fuel recursion.  Each Python iteration either
   decreases pigs_available or closes a full truck and resets the load, so with
   truck_capacity at least 1 (pydantic: ge=1) the loop runs at most
   2*pigs_available+1 times; the fuel budget 2*pigs_available+2 supplied at the
   call site therefore reproduces the source exactly on valid requests (with
   truck_capacity = 0 the Python loop would not terminate). -/
def greedyFarmLoop (dist : Location K → Location K → K) (farms : List (Farm K))
    (slaughterhouse_location : Location K) (truck_capacity daily_capacity : ℕ) (farm : Farm K) :
    ℕ → ℕ → GreedyState K → GreedyState K
  | 0, _, st => st
  | fuel + 1, pigs_available, st =>
    if pigs_available = 0 ∨ daily_capacity ≤ st.total_collected then st
    else
      let pigs_to_collect :=
        min pigs_available (min (truck_capacity - st.current_load) (daily_capacity - st.total_collected))
      let st1 :=
        if 0 < pigs_to_collect then
          greedyAddStop dist farms slaughterhouse_location farm pigs_to_collect st
        else st
      let pigs_remaining := pigs_available - pigs_to_collect
      let st2 :=
        if truck_capacity ≤ st1.current_load ∨ daily_capacity ≤ st1.total_collected then
          closeCurrentRoute dist farms slaughterhouse_location st1
        else st1
      if daily_capacity ≤ st2.total_collected then st2
      else greedyFarmLoop dist farms slaughterhouse_location truck_capacity daily_capacity
        farm fuel pigs_remaining st2

/- Ascending distance to the slaughterhouse (lines 446-452).  Python's sorted
   is stable, as is insertion sort. -/
def greedyOrder (dist : Location K → Location K → K) (slaughterhouse_location : Location K) :
    Farm K → Farm K → Prop :=
  fun a b =>
    dist a.location slaughterhouse_location ≤ dist b.location slaughterhouse_location

instance greedyOrderDec (dist : Location K → Location K → K) (l : Location K) :
    DecidableRel (greedyOrder dist l) :=
  fun _ _ => inferInstanceAs (Decidable (_ ≤ _))

def greedy_route_assignment (dist : Location K → Location K → K) (farms : List (Farm K))
    (slaughterhouse_location : Location K) (truck_capacity daily_capacity : ℕ) :
    List (TruckRoute K) × K :=
  let sorted_farms := farms.insertionSort (greedyOrder dist slaughterhouse_location)
  let st0 : GreedyState K :=
    { trucks := [], current_truck_id := 1, current_route := [],
      current_route_distance_km := 0, current_load := 0, total_collected := 0,
      total_distance_km := 0 }
  let st := sorted_farms.foldl
    (fun st farm =>
      greedyFarmLoop dist farms slaughterhouse_location truck_capacity daily_capacity farm
        (2 * farm.available_pigs + 2) farm.available_pigs st)
    st0
  let st := closeCurrentRoute dist farms slaughterhouse_location st
  (st.trucks, st.total_distance_km)

/- optimize_routes_for_day (lines 236-419).  All solver configuration
   (vehicle count, fixed vehicle costs, search parameters) only shapes the
   external solver's answer, which the oracle supplies; `none` is the
   no-solution case that falls back to the greedy assignment (line 351-354). -/
def optimize_routes_for_day (dist : Location K → Location K → K) (farms : List (Farm K))
    (slaughterhouse : Slaughterhouse K) (truck_capacity daily_capacity max_stops_per_route : ℕ)
    (solver_solution : Option (List (List ℕ))) : List (TruckRoute K) × K :=
  if farms.isEmpty then ([], 0)
  else
    let active_farms := farms.filter (fun f => 0 < f.available_pigs)
    if active_farms.isEmpty then ([], 0)
    else
      match solver_solution with
      | none =>
        greedy_route_assignment dist active_farms slaughterhouse.location
          truck_capacity daily_capacity
      | some vehicles =>
        extract_solver_routes dist active_farms slaughterhouse.location
          truck_capacity daily_capacity max_stops_per_route vehicles

/- ========================= multi-day planner =========================
   optimize_routes (main.py lines 567-801).

   The source keeps three dicts keyed by farm id and built from the same
   request.farms comprehension (base_farms, farm_state, farm_weeks_visited);
   they always share the same key set (python dicts: insertion order, last
   write wins on a duplicate id), so they are merged here into one ordered
   association list of PlannerFarm entries.

   The weekly_decline_rate request field is read nowhere in the planner, so
   the planner core takes a PlanParams record holding every other field. -/

structure PlannerFarm (K : Type) where
  base : Farm K
  remaining_pigs : K
  avg_weight_kg : K
  weeks_visited : List ℕ
deriving DecidableEq

structure PlanParams (K : Type) where
  farms : List (Farm K)
  slaughterhouse : Slaughterhouse K
  truck_capacity : ℕ
  num_days : ℕ
  planning_days_per_week : ℕ
  avg_pig_weight_kg : K
  price_per_kg : K
  truck_cost_per_week : K
  fuel_cost_per_km : K
  cost_per_km : Option K
  weekly_weight_gain_kg : K
deriving DecidableEq

def OptimizationRequest.core (req : OptimizationRequest K) : PlanParams K :=
  { farms := req.farms, slaughterhouse := req.slaughterhouse,
    truck_capacity := req.truck_capacity, num_days := req.num_days,
    planning_days_per_week := req.planning_days_per_week,
    avg_pig_weight_kg := req.avg_pig_weight_kg, price_per_kg := req.price_per_kg,
    truck_cost_per_week := req.truck_cost_per_week, fuel_cost_per_km := req.fuel_cost_per_km,
    cost_per_km := req.cost_per_km, weekly_weight_gain_kg := req.weekly_weight_gain_kg }

/- Lines 600-608: initial state per farm.  available_pigs is never None and is
   validated ge=0, so `max(0, remaining_pigs)` is the identity on the ℕ value;
   the initial weight is the farm-specific weight if given, clamped at 0. -/
def initFarmEntry (avg_pig_weight_kg : K) (f : Farm K) : PlannerFarm K :=
  { base := f,
    remaining_pigs := (f.available_pigs : K),
    avg_weight_kg := max 0 (f.avg_weight_kg.getD avg_pig_weight_kg),
    weeks_visited := [] }

/- Python dict insertion: update in place on an existing key, append otherwise. -/
def dictInsertFarm (e : PlannerFarm K) : List (PlannerFarm K) → List (PlannerFarm K)
  | [] => [e]
  | x :: xs => if x.base.id = e.base.id then e :: xs else x :: dictInsertFarm e xs

def initPlannerFarms (avg_pig_weight_kg : K) (farms : List (Farm K)) : List (PlannerFarm K) :=
  farms.foldl (fun acc f => dictInsertFarm (initFarmEntry avg_pig_weight_kg f) acc) []

/- Lines 617-620: daily weight gain, computed once before the day loop. -/
def dailyWeightGain (P : PlanParams K) : K :=
  if 0 < P.weekly_weight_gain_kg ∧ 0 < P.planning_days_per_week then
    P.weekly_weight_gain_kg / (P.planning_days_per_week : K)
  else 0

/- Line 623: cost per km used for trip costs. -/
def effectiveCostPerKm (P : PlanParams K) : K :=
  P.cost_per_km.getD P.fuel_cost_per_km

/- Lines 631-634: start-of-day weight snapshot, with the request-level default
   (farm_weight_snapshot.get(farm_id, request.avg_pig_weight_kg)). -/
def snapshotWeight (farms : List (PlannerFarm K)) (avg_pig_weight_kg : K) (i : String) : K :=
  ((farms.find? (fun e => e.base.id = i)).map (fun e => e.avg_weight_kg)).getD avg_pig_weight_kg

/- Lines 639-654: today's admissible farms. -/
def dayFarms (current_week : ℕ) (farms : List (PlannerFarm K)) : List (Farm K) :=
  farms.filterMap (fun e =>
    if e.remaining_pigs ≤ 0 then none
    else if current_week ∈ e.weeks_visited then none
    else some
      { id := e.base.id, name := e.base.name, location := e.base.location,
        available_pigs := (Int.floor e.remaining_pigs).toNat,
        max_capacity := e.base.max_capacity,
        avg_weight_kg := some e.avg_weight_kg })

def insertWeek (w : ℕ) (l : List ℕ) : List ℕ :=
  if w ∈ l then l else l ++ [w]

/- Lines 715-721: decrement inventory and record the weekly visit for one
   executed stop (`if farm_id in farm_state`, a no-op on other entries). -/
def applyStop (current_week : ℕ) (stop : RouteStop) (farms : List (PlannerFarm K)) :
    List (PlannerFarm K) :=
  farms.map (fun e =>
    if e.base.id = stop.id then
      { e with remaining_pigs := max 0 (e.remaining_pigs - (stop.pigs : K)),
               weeks_visited := insertWeek current_week e.weeks_visited }
    else e)

/- Lines 760-764 (also 670-675 on blank days): weight growth for sites that
   still hold inventory. -/
def growWeights (daily_weight_gain_kg : K) (farms : List (PlannerFarm K)) :
    List (PlannerFarm K) :=
  if 0 < daily_weight_gain_kg then
    farms.map (fun e =>
      if 0 < e.remaining_pigs then
        { e with avg_weight_kg := e.avg_weight_kg + daily_weight_gain_kg }
      else e)
  else farms

/- Accumulator of the `for truck in truck_routes` loop (lines 694-728). -/
structure DayAccum (K : Type) where
  total_pigs : ℕ
  total_kg : K
  total_distance_km : K
  total_trip_cost_euros : K
  farms : List (PlannerFarm K)

def processTruck (current_week : ℕ) (snapshot : String → K) (truck_capacity : ℕ)
    (effective_cost_per_km : K) (acc : DayAccum K) (truck : TruckRoute K) : DayAccum K :=
  let acc := { acc with total_distance_km := acc.total_distance_km + truck.distance_km }
  let inner := truck.route.foldl
    (fun (pr : ℕ × DayAccum K) stop =>
      ( pr.1 + stop.pigs,
        { pr.2 with
          total_pigs := pr.2.total_pigs + stop.pigs,
          total_kg := pr.2.total_kg + (stop.pigs : K) * snapshot stop.id,
          farms := applyStop current_week stop pr.2.farms } ))
    (0, acc)
  let truck_pigs := inner.1
  let acc := inner.2
  if 0 < truck_capacity ∧ 0 < truck.distance_km ∧ 0 < truck_pigs then
    { acc with total_trip_cost_euros := acc.total_trip_cost_euros +
        truck.distance_km * effective_cost_per_km * ((truck_pigs : K) / (truck_capacity : K)) }
  else acc

/- Lines 656-667: a day with no admissible farm. -/
def blankDay (day_offset : ℕ) : OptimizationDay K :=
  { timedatestamp := day_offset, totalKg := 0, totalEuros := 0, trucks := [],
    totalDistanceKm := 0, fuelCostEuros := 0, truckCostEuros := 0, netProfitEuros := 0 }

/- One iteration of the `for day_offset in range(request.num_days)` loop
   (lines 625-764), returning the emitted day record and the updated state.
   The truck list for the day and the totals/state accumulator of the
   `for truck in truck_routes` loop are split out as named definitions. -/
def dayTrucks (dist : Location K → Location K → K) (P : PlanParams K)
    (solver_solution : Option (List (List ℕ))) (day_offset : ℕ)
    (farms : List (PlannerFarm K)) : List (TruckRoute K) :=
  (optimize_routes_for_day dist (dayFarms (day_offset / P.planning_days_per_week) farms)
    P.slaughterhouse P.truck_capacity P.slaughterhouse.daily_capacity 3 solver_solution).1

def dayAccum (dist : Location K → Location K → K) (P : PlanParams K)
    (solver_solution : Option (List (List ℕ))) (day_offset : ℕ)
    (farms : List (PlannerFarm K)) : DayAccum K :=
  (dayTrucks dist P solver_solution day_offset farms).foldl
    (processTruck (day_offset / P.planning_days_per_week)
      (snapshotWeight farms P.avg_pig_weight_kg) P.truck_capacity (effectiveCostPerKm P))
    { total_pigs := 0, total_kg := 0, total_distance_km := 0,
      total_trip_cost_euros := 0, farms := farms }

def planDay (dist : Location K → Location K → K) (P : PlanParams K)
    (solver_solution : Option (List (List ℕ))) (day_offset : ℕ)
    (farms : List (PlannerFarm K)) : OptimizationDay K × List (PlannerFarm K) :=
  let current_week := day_offset / P.planning_days_per_week
  let today := dayFarms current_week farms
  if today.isEmpty then
    (blankDay day_offset, growWeights (dailyWeightGain P) farms)
  else
    let truck_routes := dayTrucks dist P solver_solution day_offset farms
    let num_trucks_today := truck_routes.length
    let a := dayAccum dist P solver_solution day_offset farms
    let avg_delivered_weight_kg :=
      if 0 < a.total_pigs then a.total_kg / (a.total_pigs : K) else P.avg_pig_weight_kg
    let penalty_factor :=
      compute_weight_penalty avg_delivered_weight_kg 105 115 (15 / 100) (20 / 100)
    let total_revenue_euros := a.total_kg * P.price_per_kg * (1 - penalty_factor)
    let truck_cost_euros := (num_trucks_today : K) * (P.truck_cost_per_week / 7)
    let net_profit_euros := total_revenue_euros - a.total_trip_cost_euros - truck_cost_euros
    ({ timedatestamp := day_offset,
       totalKg := round2 a.total_kg,
       totalEuros := round2 total_revenue_euros,
       trucks := truck_routes,
       totalDistanceKm := round2 a.total_distance_km,
       fuelCostEuros := round2 a.total_trip_cost_euros,
       truckCostEuros := round2 truck_cost_euros,
       netProfitEuros := round2 net_profit_euros },
     growWeights (dailyWeightGain P) a.farms)

/- The day loop, as the trace of states after t days together with the day
   records emitted so far (the oracle gives the external solver's answer for
   each day; `none` means the solver found no solution that day). -/
def planLoop (dist : Location K → Location K → K) (P : PlanParams K)
    (oracle : ℕ → Option (List (List ℕ))) :
    ℕ → List (OptimizationDay K) × List (PlannerFarm K)
  | 0 => ([], initPlannerFarms P.avg_pig_weight_kg P.farms)
  | t + 1 =>
    let r := planLoop dist P oracle t
    let d := planDay dist P (oracle t) t r.2
    (r.1 ++ [d.1], d.2)

/- Heads collected, per truck and per day (spec-side accounting). -/
def routeHead (t : TruckRoute K) : ℕ := (t.route.map (fun s => s.pigs)).sum

def dayHead (d : OptimizationDay K) : ℕ := (d.trucks.map routeHead).sum

def dayStopIds (d : OptimizationDay K) : List String :=
  (d.trucks.map (fun t => t.route.map (fun s => s.id))).flatten

/- Lines 766-795: the summary over the emitted days.  trucks_used_per_day gets
   one entry per day on both branches (0 on blank days), i.e. the truck-list
   length of each emitted record. -/
def buildSummary (num_days : ℕ) (days_data : List (OptimizationDay K)) : Summary K :=
  let trucks_used_per_day := days_data.map (fun d => d.trucks.length)
  let total_revenue := (days_data.map (fun d => d.totalEuros)).sum
  let total_fuel_cost := (days_data.map (fun d => d.fuelCostEuros)).sum
  let total_truck_cost := (days_data.map (fun d => d.truckCostEuros)).sum
  let total_net_profit := (days_data.map (fun d => d.netProfitEuros)).sum
  let total_pigs_period := (days_data.map dayHead).sum
  let total_distance := (days_data.map (fun d => d.totalDistanceKm)).sum
  let max_trucks_per_day := trucks_used_per_day.foldr Nat.max 0
  let avg_trucks_per_day : K :=
    if trucks_used_per_day.isEmpty then 0
    else ((trucks_used_per_day.map (fun n => (n : K))).sum) / (trucks_used_per_day.length : K)
  { total_days := num_days,
    total_revenue_euros := round2 total_revenue,
    total_fuel_cost_euros := round2 total_fuel_cost,
    total_truck_cost_euros := round2 total_truck_cost,
    total_costs_euros := round2 (total_fuel_cost + total_truck_cost),
    total_net_profit_euros := round2 total_net_profit,
    profit_margin_percent :=
      round2 (if 0 < total_revenue then total_net_profit / total_revenue * 100 else 0),
    total_pigs_collected := total_pigs_period,
    total_distance_km := round2 total_distance,
    max_trucks_per_day := max_trucks_per_day,
    avg_trucks_per_day := round2 avg_trucks_per_day,
    cost_per_pig_euros :=
      round2 (if 0 < total_pigs_period then
        (total_fuel_cost + total_truck_cost) / (total_pigs_period : K) else 0),
    revenue_per_pig_euros :=
      round2 (if 0 < total_pigs_period then total_revenue / (total_pigs_period : K) else 0) }

def optimize_routes_core (dist : Location K → Location K → K)
    (oracle : ℕ → Option (List (List ℕ))) (P : PlanParams K) : OptimizationResponse K :=
  let r := planLoop dist P oracle P.num_days
  { days := r.1, summary := buildSummary P.num_days r.1 }

/- The /optimize endpoint body for a request that passed validation (the empty
   farm list rejection and the wall-clock plan id are transport concerns). -/
def optimize_routes (dist : Location K → Location K → K)
    (oracle : ℕ → Option (List (List ℕ))) (req : OptimizationRequest K) :
    OptimizationResponse K :=
  optimize_routes_core dist oracle req.core

/- ===================== spec-side helpers and fixtures ===================== -/

def stopsSum (l : List RouteStop) : ℕ := (l.map (fun s => s.pigs)).sum

def sumHeads (ts : List (TruckRoute K)) : ℕ := (ts.map routeHead).sum

/- Concrete fixtures used by witness theorems (K = ℚ, taxicab collaborator
   distance, greedy fallback oracle). -/
def wDist : Location ℚ → Location ℚ → ℚ := fun a b => |a.lat - b.lat| + |a.lng - b.lng|

def wFarm1 : Farm ℚ :=
  { id := "F1", name := "Farm 1", location := ⟨0, 0⟩, available_pigs := 2,
    max_capacity := 1000, avg_weight_kg := none }

def wFarm2 : Farm ℚ :=
  { id := "F2", name := "Farm 2", location := ⟨1, 0⟩, available_pigs := 3,
    max_capacity := 1000, avg_weight_kg := none }

def wSl : Slaughterhouse ℚ :=
  { id := "S", name := "Plant", location := ⟨0, 0⟩, daily_capacity := 1, max_capacity := 10000 }

def wReq : OptimizationRequest ℚ :=
  { farms := [wFarm1, wFarm2], slaughterhouse := wSl, truck_capacity := 2, num_days := 7,
    planning_days_per_week := 5, avg_pig_weight_kg := 110, price_per_kg := 156 / 100,
    truck_cost_per_week := 2000, fuel_cost_per_km := 35 / 100, cost_per_km := none,
    weekly_weight_gain_kg := 2, weekly_decline_rate := 15 / 100 }

def wOracle : ℕ → Option (List (List ℕ)) := fun _ => none

/- ========================= generic fold lemmas ========================= -/

lemma foldl_preserve {α σ : Type} (f : σ → α → σ) (P : σ → Prop)
    (hf : ∀ s a, P s → P (f s a)) : ∀ (l : List α) (s : σ), P s → P (l.foldl f s) := by
  intro l
  induction l with
  | nil => intro s hs; simpa using hs
  | cons a t ih =>
    intro s hs
    simpa using ih (f s a) (hf s a hs)

lemma foldl_preserve_mem {α σ : Type} (f : σ → α → σ) (P : σ → Prop) (l : List α)
    (hf : ∀ s, ∀ a ∈ l, P s → P (f s a)) : ∀ (s : σ), P s → P (l.foldl f s) := by
  induction l with
  | nil => intro s hs; simpa using hs
  | cons a t ih =>
    intro s hs
    simp only [List.foldl_cons]
    exact ih (fun s b hb hsb => hf s b (by simp [hb]) hsb) _ (hf s a (by simp) hs)

/- ========================= round2 lemmas ========================= -/

lemma round2_zero : round2 (0 : K) = 0 := by
  simp [round2]

lemma round2_bounds (x : K) : x - 1 / 100 ≤ round2 x ∧ round2 x ≤ x + 1 / 100 := by
  simp only [round2]
  have h1 : (Int.floor (100 * x) : K) ≤ 100 * x := Int.floor_le _
  have h2 : 100 * x - 1 < (Int.floor (100 * x) : K) := by
    have := Int.lt_floor_add_one (100 * x)
    linarith
  split_ifs <;> constructor <;> nlinarith

/- ==================== extraction-path invariants ==================== -/

section ExtractInvariants

variable (dist : Location K → Location K → K) (active_farms : List (Farm K))
variable (locs : List (Location K)) (Q D S : ℕ)

/- Invariant of the per-vehicle node walk. -/
def ExtractInv (c0 : ℕ) (st : ExtractState K) : Prop :=
  st.route_load ≤ Q ∧ st.total_collected ≤ D ∧
  stopsSum st.route_stops = st.route_load ∧
  st.total_collected = c0 + st.route_load ∧
  st.route_stops.length = st.stops_count ∧ st.stops_count ≤ S

lemma extractNodeStep_inv (c0 : ℕ) (st : ExtractState K) (node : ℕ)
    (h : ExtractInv Q D S c0 st) :
    ExtractInv Q D S c0 (extractNodeStep dist active_farms locs Q D S st node) := by
  obtain ⟨h1, h2, h3, h4, h5, h6⟩ := h
  simp only [extractNodeStep]
  repeat' split
  all_goals try exact ⟨h1, h2, h3, h4, h5, h6⟩
  all_goals
    refine ⟨?_, ?_, ?_, ?_, ?_, ?_⟩ <;>
      simp only [stopsSum, List.map_append, List.sum_append, List.map_cons,
        List.map_nil, List.sum_cons, List.sum_nil, List.length_append,
        List.length_cons, List.length_nil] at h3 h5 ⊢ <;>
      omega

lemma extractVehicle_spec (c0 : ℕ) (nodes : List ℕ) (hc0 : c0 ≤ D) :
    stopsSum (extractVehicle dist active_farms locs Q D S c0 nodes).1 ≤ Q ∧
    (extractVehicle dist active_farms locs Q D S c0 nodes).2.2 ≤ D ∧
    (extractVehicle dist active_farms locs Q D S c0 nodes).2.2 =
      c0 + stopsSum (extractVehicle dist active_farms locs Q D S c0 nodes).1 ∧
    (extractVehicle dist active_farms locs Q D S c0 nodes).1.length ≤ S := by
  have h0 : ExtractInv Q D S c0
      ({ route_stops := [], route_load := 0, route_distance := 0, previous_node := 0,
         stops_count := 0, total_collected := c0 } : ExtractState K) := by
    refine ⟨Nat.zero_le _, hc0, ?_, ?_, ?_, Nat.zero_le _⟩ <;> simp [stopsSum]
  have hfold := foldl_preserve
    (extractNodeStep dist active_farms locs Q D S) (ExtractInv Q D S c0)
    (fun s a hs => extractNodeStep_inv dist active_farms locs Q D S c0 s a hs) nodes _ h0
  obtain ⟨h1, h2, h3, h4, h5, h6⟩ := hfold
  simp only [extractVehicle]
  refine ⟨?_, ?_, ?_, ?_⟩ <;> omega

/- Invariant of the vehicle loop: emitted routes account exactly for the
   cumulative daily total, which never exceeds the daily capacity. -/
lemma extractRoutesGo_spec (vehicles : List (List ℕ)) :
    ∀ (vid coll : ℕ) (acc : List (TruckRoute K)) (accd : K),
      coll ≤ D → sumHeads acc = coll →
      (∀ t ∈ acc, stopsSum t.route ≤ Q ∧ t.route.length ≤ S) →
      (∀ t ∈ (extractRoutesGo dist active_farms locs Q D S vehicles vid coll acc accd).1,
          stopsSum t.route ≤ Q ∧ t.route.length ≤ S) ∧
      sumHeads (extractRoutesGo dist active_farms locs Q D S vehicles vid coll acc accd).1 =
        (extractRoutesGo dist active_farms locs Q D S vehicles vid coll acc accd).2.2 ∧
      (extractRoutesGo dist active_farms locs Q D S vehicles vid coll acc accd).2.2 ≤ D := by
  induction vehicles with
  | nil =>
    intro vid coll acc accd hcoll hacc hts
    exact ⟨hts, hacc, hcoll⟩
  | cons nodes rest ih =>
    intro vid coll acc accd hcoll hacc hts
    obtain ⟨hq, hd, heq, hlen⟩ := extractVehicle_spec dist active_farms locs Q D S coll nodes hcoll
    by_cases hemp : (extractVehicle dist active_farms locs Q D S coll nodes).1.isEmpty = true
    · have hzero : stopsSum (extractVehicle dist active_farms locs Q D S coll nodes).1 = 0 := by
        rw [List.isEmpty_iff] at hemp
        simp [hemp, stopsSum]
      simp only [extractRoutesGo, hemp, if_true]
      exact ih _ _ _ _ (by omega) (by omega) hts
    · simp only [extractRoutesGo, hemp, if_false, Bool.false_eq_true]
      refine ih _ _ _ _ (by omega) ?_ ?_
      · simp only [sumHeads, routeHead, stopsSum, List.map_append, List.sum_append,
          List.map_cons, List.map_nil, List.sum_cons, List.sum_nil] at hacc heq ⊢
        omega
      · intro t ht
        rcases List.mem_append.mp ht with h | h
        · exact hts t h
        · simp only [List.mem_singleton] at h
          subst h
          exact ⟨hq, hlen⟩

lemma extract_solver_routes_bounds (slaughterhouse_location : Location K)
    (vehicles : List (List ℕ)) :
    (∀ t ∈ (extract_solver_routes dist active_farms slaughterhouse_location Q D S vehicles).1,
        stopsSum t.route ≤ Q ∧ t.route.length ≤ S) ∧
    sumHeads (extract_solver_routes dist active_farms slaughterhouse_location Q D S vehicles).1 ≤ D := by
  unfold extract_solver_routes
  have h := extractRoutesGo_spec dist active_farms
    (slaughterhouse_location :: active_farms.map (fun f => f.location)) Q D S vehicles
    0 0 [] 0 (Nat.zero_le _) (by simp [sumHeads]) (by simp)
  exact ⟨h.1, h.2.1 ▸ h.2.2⟩

end ExtractInvariants

/- ====================== greedy-path invariants ====================== -/

section GreedyInvariants

variable (dist : Location K → Location K → K) (farms : List (Farm K))
variable (slaughterhouse_location : Location K) (Q D : ℕ)

def GreedyInv (st : GreedyState K) : Prop :=
  st.current_load ≤ Q ∧ st.total_collected ≤ D ∧
  stopsSum st.current_route = st.current_load ∧
  sumHeads st.trucks + st.current_load = st.total_collected ∧
  (∀ t ∈ st.trucks, stopsSum t.route ≤ Q)

lemma greedyAddStop_inv (farm : Farm K) (c : ℕ) (st : GreedyState K)
    (h : GreedyInv Q D st) (hcQ : c ≤ Q - st.current_load)
    (hcD : c ≤ D - st.total_collected) :
    GreedyInv Q D (greedyAddStop dist farms slaughterhouse_location farm c st) := by
  obtain ⟨h1, h2, h3, h4, h5⟩ := h
  simp only [greedyAddStop]
  refine ⟨?_, ?_, ?_, ?_, h5⟩ <;>
    simp only [stopsSum, List.map_append, List.sum_append, List.map_cons, List.map_nil,
      List.sum_cons, List.sum_nil] at h3 ⊢ <;>
    omega

lemma closeCurrentRoute_inv (st : GreedyState K) (h : GreedyInv Q D st) :
    GreedyInv Q D (closeCurrentRoute dist farms slaughterhouse_location st) := by
  obtain ⟨h1, h2, h3, h4, h5⟩ := h
  simp only [closeCurrentRoute]
  split
  · rename_i hemp
    have hzero : stopsSum st.current_route = 0 := by
      rw [List.isEmpty_iff] at hemp
      simp [hemp, stopsSum]
    exact ⟨Nat.zero_le _, h2, by simp [stopsSum], by dsimp only; omega, h5⟩
  · refine ⟨Nat.zero_le _, h2, by simp [stopsSum], ?_, ?_⟩
    · dsimp only
      simp only [sumHeads, routeHead, List.map_append, List.sum_append, List.map_cons,
        List.map_nil, List.sum_cons, List.sum_nil] at h4 ⊢
      simp only [stopsSum] at h3
      omega
    · intro t ht
      rcases List.mem_append.mp ht with hmem | hmem
      · exact h5 t hmem
      · simp only [List.mem_singleton] at hmem
        subst hmem
        simpa using h3 ▸ h1

lemma greedyFarmLoop_inv (farm : Farm K) :
    ∀ (fuel pigs : ℕ) (st : GreedyState K), GreedyInv Q D st →
      GreedyInv Q D (greedyFarmLoop dist farms slaughterhouse_location Q D farm fuel pigs st) := by
  intro fuel
  induction fuel with
  | zero => intro pigs st h; simpa [greedyFarmLoop] using h
  | succ n ih =>
    intro pigs st h
    simp only [greedyFarmLoop]
    split
    · exact h
    · set c := min pigs (min (Q - st.current_load) (D - st.total_collected)) with hc
      set st1 :=
        if 0 < c then greedyAddStop dist farms slaughterhouse_location farm c st else st
        with hst1
      set st2 :=
        if Q ≤ st1.current_load ∨ D ≤ st1.total_collected then
          closeCurrentRoute dist farms slaughterhouse_location st1
        else st1 with hst2
      have hi1 : GreedyInv Q D st1 := by
        rw [hst1]
        split
        · exact greedyAddStop_inv dist farms slaughterhouse_location Q D farm c st h
            (by omega) (by omega)
        · exact h
      have hi2 : GreedyInv Q D st2 := by
        rw [hst2]
        split
        · exact closeCurrentRoute_inv dist farms slaughterhouse_location Q D st1 hi1
        · exact hi1
      split
      · exact hi2
      · exact ih _ _ hi2

lemma greedy_route_assignment_bounds :
    (∀ t ∈ (greedy_route_assignment dist farms slaughterhouse_location Q D).1,
        stopsSum t.route ≤ Q) ∧
    sumHeads (greedy_route_assignment dist farms slaughterhouse_location Q D).1 ≤ D := by
  simp only [greedy_route_assignment]
  have h0 : GreedyInv Q D
      ({ trucks := [], current_truck_id := 1, current_route := [],
         current_route_distance_km := 0, current_load := 0, total_collected := 0,
         total_distance_km := 0 } : GreedyState K) := by
    refine ⟨Nat.zero_le _, Nat.zero_le _, ?_, ?_, ?_⟩ <;> simp [stopsSum, sumHeads]
  have hst := foldl_preserve
    (fun st farm =>
      greedyFarmLoop dist farms slaughterhouse_location Q D farm
        (2 * farm.available_pigs + 2) farm.available_pigs st)
    (GreedyInv Q D)
    (fun s a hs => greedyFarmLoop_inv dist farms slaughterhouse_location Q D a _ _ s hs)
    (farms.insertionSort (greedyOrder dist slaughterhouse_location)) _ h0
  have hfin := closeCurrentRoute_inv dist farms slaughterhouse_location Q D _ hst
  obtain ⟨f1, f2, f3, f4, f5⟩ := hfin
  exact ⟨f5, by omega⟩

end GreedyInvariants

/- ====================== day-level capacity lemma ====================== -/

lemma optimize_routes_for_day_caps (dist : Location K → Location K → K)
    (farms : List (Farm K)) (sl : Slaughterhouse K) (Q D S : ℕ)
    (sol : Option (List (List ℕ))) :
    (∀ t ∈ (optimize_routes_for_day dist farms sl Q D S sol).1, stopsSum t.route ≤ Q) ∧
    sumHeads (optimize_routes_for_day dist farms sl Q D S sol).1 ≤ D := by
  simp only [optimize_routes_for_day]
  split
  · simp [sumHeads]
  · split
    · simp [sumHeads]
    · match sol with
      | none =>
        exact greedy_route_assignment_bounds dist _ sl.location Q D
      | some vehicles =>
        have h := extract_solver_routes_bounds dist
          (farms.filter (fun f => 0 < f.available_pigs)) Q D S sl.location vehicles
        exact ⟨fun t ht => (h.1 t ht).1, h.2⟩

lemma planDay_caps (dist : Location K → Location K → K) (P : PlanParams K)
    (sol : Option (List (List ℕ))) (d : ℕ) (farms : List (PlannerFarm K)) :
    (∀ t ∈ (planDay dist P sol d farms).1.trucks, stopsSum t.route ≤ P.truck_capacity) ∧
    dayHead (planDay dist P sol d farms).1 ≤ P.slaughterhouse.daily_capacity := by
  simp only [planDay]
  split
  · simp [blankDay, dayHead, sumHeads]
  · have h := optimize_routes_for_day_caps dist (dayFarms (d / P.planning_days_per_week) farms)
      P.slaughterhouse P.truck_capacity P.slaughterhouse.daily_capacity 3 sol
    exact ⟨h.1, h.2⟩

lemma planLoop_caps (dist : Location K → Location K → K) (P : PlanParams K)
    (oracle : ℕ → Option (List (List ℕ))) :
    ∀ t, ∀ day ∈ (planLoop dist P oracle t).1,
      (∀ tr ∈ day.trucks, stopsSum tr.route ≤ P.truck_capacity) ∧
      dayHead day ≤ P.slaughterhouse.daily_capacity := by
  intro t
  induction t with
  | zero => simp [planLoop]
  | succ n ih =>
    intro day hday
    simp only [planLoop] at hday
    rcases List.mem_append.mp hday with h | h
    · exact ih day h
    · simp only [List.mem_singleton] at h
      subst h
      exact planDay_caps dist P _ n _

/- ==================== stop ids come from the farm list ==================== -/

def trucksStops (ts : List (TruckRoute K)) : List RouteStop :=
  (ts.map (fun t => t.route)).flatten

lemma dayStopIds_eq (d : OptimizationDay K) :
    dayStopIds d = (trucksStops d.trucks).map (fun s => s.id) := by
  simp [dayStopIds, trucksStops, List.map_flatten, Function.comp_def]

section StopIds

variable (dist : Location K → Location K → K) (active_farms : List (Farm K))
variable (locs : List (Location K)) (Q D S : ℕ)

lemma extractNodeStep_ids (st : ExtractState K) (node : ℕ)
    (h : ∀ s ∈ st.route_stops, s.id ∈ active_farms.map (fun f => f.id)) :
    ∀ s ∈ (extractNodeStep dist active_farms locs Q D S st node).route_stops,
      s.id ∈ active_farms.map (fun f => f.id) := by
  simp only [extractNodeStep]
  repeat' split
  all_goals try exact h
  all_goals
    intro s hs
    rcases List.mem_append.mp hs with hmem | hmem
    · exact h s hmem
    · simp only [List.mem_singleton] at hmem
      subst hmem
      exact List.mem_map.mpr ⟨_, List.get?_mem (by assumption), rfl⟩

lemma extractVehicle_ids (c0 : ℕ) (nodes : List ℕ) :
    ∀ s ∈ (extractVehicle dist active_farms locs Q D S c0 nodes).1,
      s.id ∈ active_farms.map (fun f => f.id) := by
  simp only [extractVehicle]
  intro s hs
  refine (foldl_preserve _
    (fun st => ∀ x ∈ st.route_stops, x.id ∈ active_farms.map (fun f => f.id))
    (fun st a hst => extractNodeStep_ids dist active_farms locs Q D S st a hst) nodes _
    ?_) s hs
  intro x hx
  simp at hx

lemma extractRoutesGo_ids (vehicles : List (List ℕ)) :
    ∀ (vid coll : ℕ) (acc : List (TruckRoute K)) (accd : K),
      (∀ s ∈ trucksStops acc, s.id ∈ active_farms.map (fun f => f.id)) →
      ∀ s ∈ trucksStops (extractRoutesGo dist active_farms locs Q D S vehicles vid coll acc accd).1,
        s.id ∈ active_farms.map (fun f => f.id) := by
  induction vehicles with
  | nil => intro vid coll acc accd hacc; exact hacc
  | cons nodes rest ih =>
    intro vid coll acc accd hacc
    by_cases hemp : (extractVehicle dist active_farms locs Q D S coll nodes).1.isEmpty = true
    · simp only [extractRoutesGo, hemp, if_true]
      exact ih _ _ _ _ hacc
    · simp only [extractRoutesGo, hemp, if_false, Bool.false_eq_true]
      refine ih _ _ _ _ ?_
      intro s hs
      simp only [trucksStops, List.map_append, List.flatten_append] at hs
      rcases List.mem_append.mp hs with hmem | hmem
      · exact hacc s hmem
      · simp only [List.map_cons, List.map_nil, List.flatten_cons, List.flatten_nil,
          List.append_nil] at hmem
        exact extractVehicle_ids dist active_farms locs Q D S coll nodes s hmem

lemma extract_solver_routes_ids (slaughterhouse_location : Location K)
    (vehicles : List (List ℕ)) :
    ∀ s ∈ trucksStops (extract_solver_routes dist active_farms slaughterhouse_location
        Q D S vehicles).1,
      s.id ∈ active_farms.map (fun f => f.id) := by
  simp only [extract_solver_routes]
  exact extractRoutesGo_ids dist active_farms _ Q D S vehicles 0 0 [] 0 (by simp [trucksStops])

/- Greedy side: every stop id is the id of a farm in the list. -/
def GreedyIds (farms : List (Farm K)) (st : GreedyState K) : Prop :=
  (∀ s ∈ trucksStops st.trucks, s.id ∈ farms.map (fun f => f.id)) ∧
  (∀ s ∈ st.current_route, s.id ∈ farms.map (fun f => f.id))

lemma greedyAddStop_ids (farms : List (Farm K)) (slaughterhouse_location : Location K)
    (farm : Farm K) (c : ℕ) (st : GreedyState K) (h : GreedyIds farms st)
    (hfarm : farm.id ∈ farms.map (fun f => f.id)) :
    GreedyIds farms (greedyAddStop dist farms slaughterhouse_location farm c st) := by
  obtain ⟨h1, h2⟩ := h
  simp only [greedyAddStop]
  refine ⟨h1, ?_⟩
  intro s hs
  rcases List.mem_append.mp hs with hmem | hmem
  · exact h2 s hmem
  · simp only [List.mem_singleton] at hmem
    subst hmem
    exact hfarm

lemma closeCurrentRoute_ids (farms : List (Farm K)) (slaughterhouse_location : Location K)
    (st : GreedyState K) (h : GreedyIds farms st) :
    GreedyIds farms (closeCurrentRoute dist farms slaughterhouse_location st) := by
  obtain ⟨h1, h2⟩ := h
  simp only [closeCurrentRoute]
  split
  · exact ⟨h1, by simp⟩
  · refine ⟨?_, by simp⟩
    intro s hs
    simp only [trucksStops, List.map_append, List.flatten_append] at hs
    rcases List.mem_append.mp hs with hmem | hmem
    · exact h1 s hmem
    · simp only [List.map_cons, List.map_nil, List.flatten_cons, List.flatten_nil,
        List.append_nil] at hmem
      exact h2 s hmem

lemma greedyFarmLoop_ids (farms : List (Farm K)) (slaughterhouse_location : Location K)
    (farm : Farm K) (hfarm : farm.id ∈ farms.map (fun f => f.id)) :
    ∀ (fuel pigs : ℕ) (st : GreedyState K), GreedyIds farms st →
      GreedyIds farms
        (greedyFarmLoop dist farms slaughterhouse_location Q D farm fuel pigs st) := by
  intro fuel
  induction fuel with
  | zero => intro pigs st h; simpa [greedyFarmLoop] using h
  | succ n ih =>
    intro pigs st h
    simp only [greedyFarmLoop]
    split
    · exact h
    · set c := min pigs (min (Q - st.current_load) (D - st.total_collected)) with hc
      set st1 :=
        if 0 < c then greedyAddStop dist farms slaughterhouse_location farm c st else st
        with hst1
      set st2 :=
        if Q ≤ st1.current_load ∨ D ≤ st1.total_collected then
          closeCurrentRoute dist farms slaughterhouse_location st1
        else st1 with hst2
      have hi1 : GreedyIds farms st1 := by
        rw [hst1]
        split
        · exact greedyAddStop_ids dist farms slaughterhouse_location farm c st h hfarm
        · exact h
      have hi2 : GreedyIds farms st2 := by
        rw [hst2]
        split
        · exact closeCurrentRoute_ids dist farms slaughterhouse_location st1 hi1
        · exact hi1
      split
      · exact hi2
      · exact ih _ _ hi2

lemma greedy_route_assignment_ids (farms : List (Farm K))
    (slaughterhouse_location : Location K) :
    ∀ s ∈ trucksStops (greedy_route_assignment dist farms slaughterhouse_location Q D).1,
      s.id ∈ farms.map (fun f => f.id) := by
  simp only [greedy_route_assignment]
  have h0 : GreedyIds farms
      ({ trucks := [], current_truck_id := 1, current_route := [],
         current_route_distance_km := 0, current_load := 0, total_collected := 0,
         total_distance_km := 0 } : GreedyState K) := by
    constructor <;> simp [trucksStops]
  have hst : GreedyIds farms
      ((farms.insertionSort (greedyOrder dist slaughterhouse_location)).foldl
        (fun st farm =>
          greedyFarmLoop dist farms slaughterhouse_location Q D farm
            (2 * farm.available_pigs + 2) farm.available_pigs st)
        { trucks := [], current_truck_id := 1, current_route := [],
          current_route_distance_km := 0, current_load := 0, total_collected := 0,
          total_distance_km := 0 }) := by
    refine foldl_preserve_mem _ (GreedyIds farms) _ ?_ _ h0
    intro st f hf hst
    have hfid : f.id ∈ farms.map (fun x => x.id) :=
      List.mem_map.mpr ⟨f, (List.perm_insertionSort _ farms).subset hf, rfl⟩
    exact greedyFarmLoop_ids dist Q D farms slaughterhouse_location f hfid _ _ st hst
  have hfin := closeCurrentRoute_ids dist farms slaughterhouse_location _ hst
  exact hfin.1

end StopIds

/-- C1: in every emitted day record, each truck picks up at most truck_capacity
head (sum of stop.pigs over its stops), and the day's total pickup is at most
the slaughterhouse's daily_capacity; this holds for arbitrary solver output on
the extraction path and on the greedy fallback path alike. -/
theorem C1_truck_and_daily_capacity (dist : Location K → Location K → K)
    (oracle : ℕ → Option (List (List ℕ))) (req : OptimizationRequest K) :
    ∀ day ∈ (optimize_routes dist oracle req).days,
      (∀ t ∈ day.trucks, routeHead t ≤ req.truck_capacity) ∧
      dayHead day ≤ req.slaughterhouse.daily_capacity := by
  intro day hday
  have h := planLoop_caps dist req.core oracle req.core.num_days day hday
  exact ⟨fun t ht => h.1 t ht, h.2⟩

set_option maxRecDepth 1000000 in
set_option maxHeartbeats 2000000 in
theorem C1_truck_and_daily_capacity_witness :
    (blankDay 2 : OptimizationDay ℚ) ∈ (optimize_routes wDist wOracle wReq).days ∧
    ((∀ t ∈ (blankDay 2 : OptimizationDay ℚ).trucks, routeHead t ≤ wReq.truck_capacity) ∧
      dayHead (blankDay 2 : OptimizationDay ℚ) ≤ wReq.slaughterhouse.daily_capacity) :=
  ⟨of_decide_eq_true (by with_unfolding_all rfl),
   C1_truck_and_daily_capacity wDist wOracle wReq (blankDay 2)
     (of_decide_eq_true (by with_unfolding_all rfl))⟩

/- ================= planner state dictionary lemmas ================= -/

def plannerKeys (farms : List (PlannerFarm K)) : List String :=
  farms.map (fun e => e.base.id)

def ledgerOf (farms : List (PlannerFarm K)) (i : String) : List ℕ :=
  ((farms.find? (fun e => e.base.id = i)).map (fun e => e.weeks_visited)).getD []

def remainingOf (farms : List (PlannerFarm K)) (i : String) : K :=
  ((farms.find? (fun e => e.base.id = i)).map (fun e => e.remaining_pigs)).getD 0

lemma mem_keys_dictInsertFarm (e : PlannerFarm K) (l : List (PlannerFarm K)) (i : String) :
    i ∈ plannerKeys (dictInsertFarm e l) ↔ i = e.base.id ∨ i ∈ plannerKeys l := by
  induction l with
  | nil => simp [dictInsertFarm, plannerKeys]
  | cons x xs ih =>
    simp only [dictInsertFarm]
    split
    · rename_i hx
      simp only [plannerKeys, List.map_cons, List.mem_cons] at *
      rw [hx]
      tauto
    · simp only [plannerKeys, List.map_cons, List.mem_cons] at *
      rw [ih]
      tauto

lemma keys_nodup_dictInsertFarm (e : PlannerFarm K) (l : List (PlannerFarm K))
    (h : (plannerKeys l).Nodup) : (plannerKeys (dictInsertFarm e l)).Nodup := by
  induction l with
  | nil => simp [dictInsertFarm, plannerKeys]
  | cons x xs ih =>
    simp only [dictInsertFarm]
    simp only [plannerKeys, List.map_cons, List.nodup_cons] at h
    split
    · rename_i hx
      simp only [plannerKeys, List.map_cons, List.nodup_cons]
      exact ⟨by rw [← hx]; exact h.1, h.2⟩
    · rename_i hx
      simp only [plannerKeys, List.map_cons, List.nodup_cons]
      refine ⟨?_, ih h.2⟩
      intro hc
      rcases (mem_keys_dictInsertFarm e xs x.base.id).mp
          (by simpa [plannerKeys] using hc) with h1 | h1
      · exact hx (by rw [h1])
      · exact h.1 (by simpa [plannerKeys] using h1)

lemma initPlannerFarms_keys_nodup (w : K) (fs : List (Farm K)) :
    (plannerKeys (initPlannerFarms w fs)).Nodup := by
  refine foldl_preserve (fun acc f => dictInsertFarm (initFarmEntry w f) acc)
    (fun acc => (plannerKeys acc).Nodup) ?_ fs [] (by simp [plannerKeys])
  intro acc f hacc
  exact keys_nodup_dictInsertFarm _ _ hacc

lemma plannerKeys_applyStop (week : ℕ) (stop : RouteStop) (farms : List (PlannerFarm K)) :
    plannerKeys (applyStop week stop farms) = plannerKeys farms := by
  induction farms with
  | nil => rfl
  | cons e rest ih =>
    simp only [applyStop, plannerKeys, List.map_cons] at ih ⊢
    split <;> simp_all

lemma plannerKeys_growWeights (g : K) (farms : List (PlannerFarm K)) :
    plannerKeys (growWeights g farms) = plannerKeys farms := by
  simp only [growWeights]
  split
  · induction farms with
    | nil => rfl
    | cons e rest ih =>
      simp only [plannerKeys, List.map_cons] at ih ⊢
      split <;> simp_all
  · rfl

lemma mem_insertWeek_self (w : ℕ) (l : List ℕ) : w ∈ insertWeek w l := by
  simp only [insertWeek]
  split
  · assumption
  · simp

lemma mem_insertWeek_mono (w w' : ℕ) (l : List ℕ) (h : w ∈ l) : w ∈ insertWeek w' l := by
  simp only [insertWeek]
  split
  · exact h
  · simp [h]

lemma ledgerOf_applyStop_mono (week : ℕ) (stop : RouteStop) (farms : List (PlannerFarm K))
    (i : String) (w : ℕ) (h : w ∈ ledgerOf farms i) :
    w ∈ ledgerOf (applyStop week stop farms) i := by
  induction farms with
  | nil => simpa [ledgerOf, applyStop] using h
  | cons e rest ih =>
    by_cases hi : e.base.id = i
    · by_cases hs : e.base.id = stop.id
      · simp only [ledgerOf, applyStop, List.map_cons, if_pos hs] at h ⊢
        rw [List.find?_cons_of_pos _ (by simpa using hi)] at h
        rw [List.find?_cons_of_pos _ (by simpa using hi)]
        simpa using mem_insertWeek_mono w week _ (by simpa using h)
      · simp only [ledgerOf, applyStop, List.map_cons, if_neg hs] at h ⊢
        rw [List.find?_cons_of_pos _ (by simpa using hi)] at h
        rw [List.find?_cons_of_pos _ (by simpa using hi)]
        simpa using h
    · simp only [ledgerOf, applyStop, List.map_cons] at h ⊢
      split <;>
      · rw [List.find?_cons_of_neg _ (by simpa using hi)] at h
        rw [List.find?_cons_of_neg _ (by simpa using hi)]
        exact ih h

lemma ledgerOf_applyStop_self (week : ℕ) (stop : RouteStop) (farms : List (PlannerFarm K))
    (h : stop.id ∈ plannerKeys farms) :
    week ∈ ledgerOf (applyStop week stop farms) stop.id := by
  induction farms with
  | nil => simp [plannerKeys] at h
  | cons e rest ih =>
    by_cases hs : e.base.id = stop.id
    · simp only [ledgerOf, applyStop, List.map_cons, if_pos hs]
      rw [List.find?_cons_of_pos _ (by simpa using hs)]
      simpa using mem_insertWeek_self week _
    · simp only [plannerKeys, List.map_cons, List.mem_cons] at h
      rcases h with h | h
      · exact absurd h.symm hs
      · simp only [ledgerOf, applyStop, List.map_cons, if_neg hs]
        rw [List.find?_cons_of_neg _ (by simpa using hs)]
        exact ih h

lemma ledgerOf_map_of_base_weeks (f : PlannerFarm K → PlannerFarm K)
    (hb : ∀ e, (f e).base = e.base) (hw : ∀ e, (f e).weeks_visited = e.weeks_visited)
    (farms : List (PlannerFarm K)) (i : String) :
    ledgerOf (farms.map f) i = ledgerOf farms i := by
  induction farms with
  | nil => rfl
  | cons e rest ih =>
    simp only [List.map_cons, ledgerOf]
    by_cases hi : e.base.id = i
    · rw [List.find?_cons_of_pos _ (by simp [hb, hi]),
        List.find?_cons_of_pos _ (by simpa using hi)]
      simp [hw]
    · rw [List.find?_cons_of_neg _ (by simp [hb, hi]),
        List.find?_cons_of_neg _ (by simpa using hi)]
      exact ih

lemma ledgerOf_growWeights (g : K) (farms : List (PlannerFarm K)) (i : String) :
    ledgerOf (growWeights g farms) i = ledgerOf farms i := by
  simp only [growWeights]
  split
  · exact ledgerOf_map_of_base_weeks _ (by intro e; split <;> rfl)
      (by intro e; split <;> rfl) farms i
  · rfl

lemma find?_entry_of_mem (farms : List (PlannerFarm K)) (hk : (plannerKeys farms).Nodup)
    (e : PlannerFarm K) (he : e ∈ farms) :
    farms.find? (fun x => x.base.id = e.base.id) = some e := by
  induction farms with
  | nil => simp at he
  | cons x rest ih =>
    simp only [plannerKeys, List.map_cons, List.nodup_cons] at hk
    rcases List.mem_cons.mp he with rfl | hmem
    · exact List.find?_cons_of_pos _ (by simp)
    · have hx : ¬ x.base.id = e.base.id := by
        intro hcontra
        exact hk.1 (hcontra ▸ List.mem_map.mpr ⟨e, hmem, rfl⟩)
      rw [List.find?_cons_of_neg _ (by simpa using hx)]
      exact ih hk.2 hmem

/- ================= day-level and trace-level planner lemmas ================= -/

lemma optimize_routes_for_day_ids (dist : Location K → Location K → K)
    (farms : List (Farm K)) (sl : Slaughterhouse K) (Q D S : ℕ)
    (sol : Option (List (List ℕ))) :
    ∀ s ∈ trucksStops (optimize_routes_for_day dist farms sl Q D S sol).1,
      s.id ∈ farms.map (fun f => f.id) := by
  have hsub : ∀ i ∈ (farms.filter (fun f => 0 < f.available_pigs)).map (fun f => f.id),
      i ∈ farms.map (fun f => f.id) := by
    intro i hi
    rcases List.mem_map.mp hi with ⟨f, hf, rfl⟩
    exact List.mem_map.mpr ⟨f, (List.mem_filter.mp hf).1, rfl⟩
  simp only [optimize_routes_for_day]
  split
  · simp [trucksStops]
  · split
    · simp [trucksStops]
    · intro s hs
      rcases sol with _ | vehicles
      · exact hsub _ (greedy_route_assignment_ids dist Q D _ sl.location s hs)
      · exact hsub _ (extract_solver_routes_ids dist _ Q D S sl.location vehicles s hs)

lemma mem_dayFarms_ids (week : ℕ) (farms : List (PlannerFarm K)) (s : String) :
    s ∈ (dayFarms week farms).map (fun f => f.id) ↔
      ∃ e ∈ farms, e.base.id = s ∧ ¬ e.remaining_pigs ≤ 0 ∧ week ∉ e.weeks_visited := by
  constructor
  · intro h
    rcases List.mem_map.mp h with ⟨f, hf, rfl⟩
    rcases List.mem_filterMap.mp hf with ⟨e, he, heq⟩
    by_cases h1 : e.remaining_pigs ≤ 0
    · simp [h1] at heq
    · by_cases h2 : week ∈ e.weeks_visited
      · simp [h1, h2] at heq
      · simp only [if_neg h1, if_neg h2, Option.some_inj] at heq
        exact ⟨e, he, by rw [← heq], h1, h2⟩
  · rintro ⟨e, he, hid, h1, h2⟩
    have hf :
        ({ id := e.base.id, name := e.base.name, location := e.base.location,
           available_pigs := (Int.floor e.remaining_pigs).toNat,
           max_capacity := e.base.max_capacity,
           avg_weight_kg := some e.avg_weight_kg } : Farm K) ∈ dayFarms week farms :=
      List.mem_filterMap.mpr ⟨e, he, by rw [if_neg h1, if_neg h2]⟩
    exact List.mem_map.mpr ⟨_, hf, hid⟩

lemma dayFarms_ids_sub (week : ℕ) (farms : List (PlannerFarm K)) (i : String)
    (h : i ∈ (dayFarms week farms).map (fun f => f.id)) : i ∈ plannerKeys farms := by
  rcases (mem_dayFarms_ids week farms i).mp h with ⟨e, he, hid, _, _⟩
  exact List.mem_map.mpr ⟨e, he, hid⟩

lemma planDay_stop_ids (dist : Location K → Location K → K) (P : PlanParams K)
    (sol : Option (List (List ℕ))) (d : ℕ) (farms : List (PlannerFarm K)) :
    ∀ s ∈ dayStopIds (planDay dist P sol d farms).1,
      s ∈ (dayFarms (d / P.planning_days_per_week) farms).map (fun f => f.id) := by
  simp only [planDay]
  split
  · simp [blankDay, dayStopIds]
  · intro s hs
    rw [dayStopIds_eq] at hs
    rcases List.mem_map.mp hs with ⟨stop, hstop, rfl⟩
    exact optimize_routes_for_day_ids dist _ P.slaughterhouse P.truck_capacity
      P.slaughterhouse.daily_capacity 3 sol stop hstop

/- The planner's per-day state mutation is the fold of applyStop over the day's
   stops in execution order, followed by the weight-growth pass. -/
lemma processTruck_inner_farms (week : ℕ) (snapshot : String → K) :
    ∀ (L : List RouteStop) (p : ℕ × DayAccum K),
      ((L.foldl (fun (pr : ℕ × DayAccum K) stop =>
        ( pr.1 + stop.pigs,
          { pr.2 with
            total_pigs := pr.2.total_pigs + stop.pigs,
            total_kg := pr.2.total_kg + (stop.pigs : K) * snapshot stop.id,
            farms := applyStop week stop pr.2.farms } )) p).2).farms =
      L.foldl (fun fs stop => applyStop week stop fs) p.2.farms := by
  intro L
  induction L with
  | nil => intro p; rfl
  | cons s rest ih =>
    intro p
    simp only [List.foldl_cons]
    exact ih _

lemma processTruck_farms (week : ℕ) (snapshot : String → K) (Q : ℕ) (Ct : K)
    (acc : DayAccum K) (truck : TruckRoute K) :
    (processTruck week snapshot Q Ct acc truck).farms =
      truck.route.foldl (fun fs stop => applyStop week stop fs) acc.farms := by
  have h := processTruck_inner_farms week snapshot truck.route
    (0, { acc with total_distance_km := acc.total_distance_km + truck.distance_km })
  simp only [processTruck]
  split
  · exact h
  · exact h

lemma trucks_fold_farms (week : ℕ) (snapshot : String → K) (Q : ℕ) (Ct : K) :
    ∀ (ts : List (TruckRoute K)) (acc : DayAccum K),
      (ts.foldl (processTruck week snapshot Q Ct) acc).farms =
        (trucksStops ts).foldl (fun fs stop => applyStop week stop fs) acc.farms := by
  intro ts
  induction ts with
  | nil => intro acc; rfl
  | cons t rest ih =>
    intro acc
    simp only [List.foldl_cons, trucksStops, List.map_cons, List.flatten_cons]
    rw [List.foldl_append, ← processTruck_farms week snapshot Q Ct acc t]
    exact ih _

lemma planDay_farms_eq (dist : Location K → Location K → K) (P : PlanParams K)
    (sol : Option (List (List ℕ))) (d : ℕ) (farms : List (PlannerFarm K)) :
    (planDay dist P sol d farms).2 =
      growWeights (dailyWeightGain P)
        ((trucksStops (planDay dist P sol d farms).1.trucks).foldl
          (fun fs stop => applyStop (d / P.planning_days_per_week) stop fs) farms) := by
  simp only [planDay]
  split
  · simp [blankDay, trucksStops]
  · dsimp only
    congr 1
    exact trucks_fold_farms (d / P.planning_days_per_week)
      (snapshotWeight farms P.avg_pig_weight_kg) P.truck_capacity (effectiveCostPerKm P) _ _

lemma applyStops_keys (week : ℕ) :
    ∀ (L : List RouteStop) (fs : List (PlannerFarm K)),
      plannerKeys (L.foldl (fun fs stop => applyStop week stop fs) fs) = plannerKeys fs := by
  intro L
  induction L with
  | nil => intro fs; rfl
  | cons s rest ih =>
    intro fs
    simp only [List.foldl_cons]
    rw [ih, plannerKeys_applyStop]

lemma planDay_keys (dist : Location K → Location K → K) (P : PlanParams K)
    (sol : Option (List (List ℕ))) (d : ℕ) (farms : List (PlannerFarm K)) :
    plannerKeys (planDay dist P sol d farms).2 = plannerKeys farms := by
  rw [planDay_farms_eq, plannerKeys_growWeights, applyStops_keys]

lemma applyStops_ledger_mono (week : ℕ) :
    ∀ (L : List RouteStop) (fs : List (PlannerFarm K)) (i : String) (w : ℕ),
      w ∈ ledgerOf fs i →
      w ∈ ledgerOf (L.foldl (fun fs stop => applyStop week stop fs) fs) i := by
  intro L
  induction L with
  | nil => intro fs i w h; exact h
  | cons s rest ih =>
    intro fs i w h
    simp only [List.foldl_cons]
    exact ih _ i w (ledgerOf_applyStop_mono week s fs i w h)

lemma applyStops_ledger_self (week : ℕ) :
    ∀ (L : List RouteStop) (fs : List (PlannerFarm K)) (s : String),
      (∃ st ∈ L, st.id = s) → s ∈ plannerKeys fs →
      week ∈ ledgerOf (L.foldl (fun fs stop => applyStop week stop fs) fs) s := by
  intro L
  induction L with
  | nil => rintro fs s ⟨st, hst, _⟩ _; simp at hst
  | cons st rest ih =>
    rintro fs s ⟨x, hx, hid⟩ hkeys
    simp only [List.foldl_cons]
    rcases List.mem_cons.mp hx with rfl | hmem
    · subst hid
      exact applyStops_ledger_mono week rest _ x.id week
        (ledgerOf_applyStop_self week x fs hkeys)
    · exact ih _ s ⟨x, hmem, hid⟩ (by rw [plannerKeys_applyStop]; exact hkeys)

lemma planDay_ledger_mono (dist : Location K → Location K → K) (P : PlanParams K)
    (sol : Option (List (List ℕ))) (d : ℕ) (farms : List (PlannerFarm K))
    (i : String) (w : ℕ) (h : w ∈ ledgerOf farms i) :
    w ∈ ledgerOf (planDay dist P sol d farms).2 i := by
  rw [planDay_farms_eq, ledgerOf_growWeights]
  exact applyStops_ledger_mono _ _ farms i w h

lemma planDay_visit_recorded (dist : Location K → Location K → K) (P : PlanParams K)
    (sol : Option (List (List ℕ))) (d : ℕ) (farms : List (PlannerFarm K)) (s : String)
    (hs : s ∈ dayStopIds (planDay dist P sol d farms).1) :
    (d / P.planning_days_per_week) ∈ ledgerOf (planDay dist P sol d farms).2 s := by
  have hkeys : s ∈ plannerKeys farms :=
    dayFarms_ids_sub _ farms s (planDay_stop_ids dist P sol d farms s hs)
  rw [planDay_farms_eq, ledgerOf_growWeights]
  refine applyStops_ledger_self _ _ _ s ?_ hkeys
  rw [dayStopIds_eq] at hs
  rcases List.mem_map.mp hs with ⟨st, hst, rfl⟩
  exact ⟨st, hst, rfl⟩

lemma planDay_admissible (dist : Location K → Location K → K) (P : PlanParams K)
    (sol : Option (List (List ℕ))) (d : ℕ) (farms : List (PlannerFarm K))
    (hk : (plannerKeys farms).Nodup) (s : String)
    (hs : s ∈ dayStopIds (planDay dist P sol d farms).1) :
    (d / P.planning_days_per_week) ∉ ledgerOf farms s := by
  rcases (mem_dayFarms_ids _ farms s).mp (planDay_stop_ids dist P sol d farms s hs) with
    ⟨e, he, hid, _, hweek⟩
  subst hid
  intro hcontra
  rw [ledgerOf, find?_entry_of_mem farms hk e he] at hcontra
  exact hweek (by simpa using hcontra)

lemma planLoop_length (dist : Location K → Location K → K) (P : PlanParams K)
    (oracle : ℕ → Option (List (List ℕ))) :
    ∀ t, (planLoop dist P oracle t).1.length = t := by
  intro t
  induction t with
  | zero => rfl
  | succ n ih => simp [planLoop, ih]

lemma planLoop_getD (dist : Location K → Location K → K) (P : PlanParams K)
    (oracle : ℕ → Option (List (List ℕ))) :
    ∀ t d, d < t →
      (planLoop dist P oracle t).1.getD d (blankDay 0) =
        (planDay dist P (oracle d) d (planLoop dist P oracle d).2).1 := by
  intro t
  induction t with
  | zero => intro d hd; omega
  | succ n ih =>
    intro d hd
    simp only [planLoop]
    rcases Nat.lt_succ_iff_lt_or_eq.mp hd with h | rfl
    · rw [List.getD_append _ _ _ _ (by rw [planLoop_length]; exact h)]
      exact ih d h
    · rw [List.getD_append_right _ _ _ _ (by rw [planLoop_length])]
      simp [planLoop_length]

lemma planLoop_keys (dist : Location K → Location K → K) (P : PlanParams K)
    (oracle : ℕ → Option (List (List ℕ))) :
    ∀ t, plannerKeys (planLoop dist P oracle t).2 =
      plannerKeys (initPlannerFarms P.avg_pig_weight_kg P.farms) := by
  intro t
  induction t with
  | zero => rfl
  | succ n ih =>
    show plannerKeys (planDay dist P (oracle n) n (planLoop dist P oracle n).2).2 = _
    rw [planDay_keys, ih]

lemma planLoop_keys_nodup (dist : Location K → Location K → K) (P : PlanParams K)
    (oracle : ℕ → Option (List (List ℕ))) (t : ℕ) :
    (plannerKeys (planLoop dist P oracle t).2).Nodup := by
  rw [planLoop_keys]
  exact initPlannerFarms_keys_nodup _ _

lemma planLoop_ledger_mono (dist : Location K → Location K → K) (P : PlanParams K)
    (oracle : ℕ → Option (List (List ℕ))) (i : String) (w : ℕ) (a b : ℕ) (hab : a ≤ b)
    (h : w ∈ ledgerOf (planLoop dist P oracle a).2 i) :
    w ∈ ledgerOf (planLoop dist P oracle b).2 i := by
  induction b, hab using Nat.le_induction with
  | base => exact h
  | succ n hn ihn =>
    exact planDay_ledger_mono dist P (oracle n) n _ i w ihn

/-- C6: within any week bucket, a site appears in at most one emitted day
record: once a stop runs for a site, the bucket is recorded in its visit
ledger, and ledgered sites are excluded from the admissible set. -/
theorem C6_weekly_uniqueness (dist : Location K → Location K → K)
    (oracle : ℕ → Option (List (List ℕ))) (req : OptimizationRequest K) (s : String)
    (d1 d2 : ℕ) (h12 : d1 < d2)
    (hw : d1 / req.planning_days_per_week = d2 / req.planning_days_per_week)
    (hs1 : s ∈ dayStopIds ((optimize_routes dist oracle req).days.getD d1 (blankDay 0))) :
    s ∉ dayStopIds ((optimize_routes dist oracle req).days.getD d2 (blankDay 0)) := by
  intro hs2
  have hdays : (optimize_routes dist oracle req).days =
      (planLoop dist req.core oracle req.core.num_days).1 := rfl
  rw [hdays] at hs1 hs2
  by_cases hb2 : d2 < req.core.num_days
  · have hb1 : d1 < req.core.num_days := lt_trans h12 hb2
    rw [planLoop_getD dist req.core oracle _ d1 hb1] at hs1
    rw [planLoop_getD dist req.core oracle _ d2 hb2] at hs2
    have hrec := planDay_visit_recorded dist req.core (oracle d1) d1
      (planLoop dist req.core oracle d1).2 s hs1
    have hstep : (planDay dist req.core (oracle d1) d1 (planLoop dist req.core oracle d1).2).2 =
        (planLoop dist req.core oracle (d1 + 1)).2 := rfl
    rw [hstep] at hrec
    have hmono := planLoop_ledger_mono dist req.core oracle s
      (d1 / req.core.planning_days_per_week) (d1 + 1) d2 (by omega) hrec
    have hadm := planDay_admissible dist req.core (oracle d2) d2 _
      (planLoop_keys_nodup dist req.core oracle d2) s hs2
    have hw' : d1 / req.core.planning_days_per_week = d2 / req.core.planning_days_per_week :=
      hw
    exact hadm (hw' ▸ hmono)
  · rw [List.getD_eq_default _ _ (by rw [planLoop_length]; omega)] at hs2
    simp [dayStopIds, blankDay] at hs2

set_option maxRecDepth 1000000 in
set_option maxHeartbeats 2000000 in
theorem C6_weekly_uniqueness_witness :
    0 < 1 ∧ 0 / wReq.planning_days_per_week = 1 / wReq.planning_days_per_week ∧
    "F1" ∈ dayStopIds ((optimize_routes wDist wOracle wReq).days.getD 0 (blankDay 0)) ∧
    "F1" ∉ dayStopIds ((optimize_routes wDist wOracle wReq).days.getD 1 (blankDay 0)) :=
  ⟨Nat.zero_lt_one, rfl, of_decide_eq_true (by with_unfolding_all rfl),
   C6_weekly_uniqueness wDist wOracle wReq "F1" 0 1 Nat.zero_lt_one rfl
     (of_decide_eq_true (by with_unfolding_all rfl))⟩

/- ---- C2: the 3-stop cap holds on the solver path but not on greedy ---- -/

lemma optimize_routes_for_day_stopcap (dist : Location K → Location K → K)
    (farms : List (Farm K)) (sl : Slaughterhouse K) (Q D S : ℕ) (vehicles : List (List ℕ)) :
    ∀ t ∈ (optimize_routes_for_day dist farms sl Q D S (some vehicles)).1,
      t.route.length ≤ S := by
  simp only [optimize_routes_for_day]
  split
  · simp
  · split
    · simp
    · intro t ht
      exact ((extract_solver_routes_bounds dist (farms.filter (fun f => 0 < f.available_pigs))
        Q D S sl.location vehicles).1 t ht).2

lemma planDay_stopcap_some (dist : Location K → Location K → K) (P : PlanParams K)
    (vehicles : List (List ℕ)) (d : ℕ) (farms : List (PlannerFarm K)) :
    ∀ t ∈ (planDay dist P (some vehicles) d farms).1.trucks, t.route.length ≤ 3 := by
  simp only [planDay]
  split
  · simp [blankDay]
  · exact fun t ht => optimize_routes_for_day_stopcap dist _ P.slaughterhouse
      P.truck_capacity P.slaughterhouse.daily_capacity 3 vehicles t ht

lemma planLoop_stopcap (dist : Location K → Location K → K) (P : PlanParams K)
    (oracle : ℕ → Option (List (List ℕ))) (h : ∀ d, oracle d ≠ none) :
    ∀ t, ∀ day ∈ (planLoop dist P oracle t).1, ∀ tr ∈ day.trucks, tr.route.length ≤ 3 := by
  intro t
  induction t with
  | zero => simp [planLoop]
  | succ n ih =>
    intro day hday
    simp only [planLoop] at hday
    rcases List.mem_append.mp hday with hm | hm
    · exact ih day hm
    · simp only [List.mem_singleton] at hm
      subst hm
      rcases hn : oracle n with _ | vehicles
      · exact absurd hn (h n)
      · exact planDay_stopcap_some dist P vehicles n _

def c2Farm (i : String) : Farm ℚ :=
  { id := i, name := i, location := ⟨0, 0⟩, available_pigs := 1, max_capacity := 10,
    avg_weight_kg := none }

/-- C2 counterexample: on the greedy fallback path four co-located one-pig
farms are packed into a single truck with four stops, exceeding S_max = 3
(greedy_route_assignment imposes no stop cap). -/
theorem C2_stop_cap_counterexample :
    ∃ t ∈ (greedy_route_assignment wDist [c2Farm "A", c2Farm "B", c2Farm "C", c2Farm "D"]
        (⟨0, 0⟩ : Location ℚ) 181 1000).1, 3 < t.route.length :=
  of_decide_eq_true (by with_unfolding_all rfl)

/-- C2 (amended): every truck route in every emitted day record has at most 3
stops on the solver-extraction path, i.e. whenever the external solver returns
a solution on every planning day; the greedy fallback path imposes no stop cap
(see the counterexample). -/
theorem C2_stop_cap_solver_path (dist : Location K → Location K → K)
    (oracle : ℕ → Option (List (List ℕ))) (req : OptimizationRequest K)
    (h : ∀ d, oracle d ≠ none) :
    ∀ day ∈ (optimize_routes dist oracle req).days, ∀ t ∈ day.trucks,
      t.route.length ≤ 3 := by
  intro day hday
  exact planLoop_stopcap dist req.core oracle h req.core.num_days day hday

def wOracleSome : ℕ → Option (List (List ℕ)) := fun _ => some [[0]]

theorem C2_stop_cap_solver_path_witness :
    (∀ d, wOracleSome d ≠ none) ∧
    (∀ day ∈ (optimize_routes wDist wOracleSome wReq).days, ∀ t ∈ day.trucks,
      t.route.length ≤ 3) :=
  ⟨fun _ => Option.some_ne_none _,
   C2_stop_cap_solver_path wDist wOracleSome wReq (fun _ => Option.some_ne_none _)⟩

/- ---- C3: per-day site distinctness fails on the greedy path ---- -/

def c3Farm : Farm ℚ :=
  { id := "F", name := "Big farm", location := ⟨0, 0⟩, available_pigs := 300,
    max_capacity := 1000, avg_weight_kg := none }

def c3Req : OptimizationRequest ℚ :=
  { farms := [c3Farm],
    slaughterhouse :=
      { id := "S", name := "Plant", location := ⟨0, 0⟩, daily_capacity := 1000,
        max_capacity := 10000 },
    truck_capacity := 181, num_days := 1, planning_days_per_week := 5,
    avg_pig_weight_kg := 110, price_per_kg := 156 / 100, truck_cost_per_week := 2000,
    fuel_cost_per_km := 35 / 100, cost_per_km := none, weekly_weight_gain_kg := 0,
    weekly_decline_rate := 15 / 100 }

/-- C3 counterexample: a 300-head farm with truck capacity 181 is split by the
greedy fallback across two trucks within the same day record, so the stops
across the day's trucks do not reference pairwise distinct farm ids. -/
theorem C3_distinct_sites_counterexample :
    ¬ (dayStopIds ((optimize_routes wDist wOracle c3Req).days.getD 0
        (blankDay 0))).Pairwise (fun a b => a ≠ b) :=
  of_decide_eq_true (by with_unfolding_all rfl)

/- ==================== C4: day-record economics ==================== -/

def specStopKg (snapshot : String → K) (s : RouteStop) : K := (s.pigs : K) * snapshot s.id

def specTotalKg (snapshot : String → K) (ts : List (TruckRoute K)) : K :=
  ((trucksStops ts).map (specStopKg snapshot)).sum

def specTripCost (Q : ℕ) (Ct : K) (t : TruckRoute K) : K :=
  if 0 < t.distance_km ∧ 0 < routeHead t then
    t.distance_km * Ct * ((routeHead t : K) / (Q : K))
  else 0

def specTripCostSum (Q : ℕ) (Ct : K) (ts : List (TruckRoute K)) : K :=
  (ts.map (specTripCost Q Ct)).sum

def truckDistanceSum (ts : List (TruckRoute K)) : K :=
  (ts.map (fun t => t.distance_km)).sum

lemma sumHeads_eq_stopsSum (ts : List (TruckRoute K)) :
    sumHeads ts = stopsSum (trucksStops ts) := by
  induction ts with
  | nil => rfl
  | cons t rest ih =>
    simp only [sumHeads, trucksStops, stopsSum, routeHead, List.map_cons, List.sum_cons,
      List.flatten_cons, List.map_append, List.sum_append] at ih ⊢
    omega

lemma processTruck_inner_accum (week : ℕ) (snapshot : String → K) :
    ∀ (L : List RouteStop) (p : ℕ × DayAccum K),
      (L.foldl (fun (pr : ℕ × DayAccum K) stop =>
        ( pr.1 + stop.pigs,
          { pr.2 with
            total_pigs := pr.2.total_pigs + stop.pigs,
            total_kg := pr.2.total_kg + (stop.pigs : K) * snapshot stop.id,
            farms := applyStop week stop pr.2.farms } )) p).1 = p.1 + stopsSum L ∧
      (L.foldl (fun (pr : ℕ × DayAccum K) stop =>
        ( pr.1 + stop.pigs,
          { pr.2 with
            total_pigs := pr.2.total_pigs + stop.pigs,
            total_kg := pr.2.total_kg + (stop.pigs : K) * snapshot stop.id,
            farms := applyStop week stop pr.2.farms } )) p).2.total_pigs =
          p.2.total_pigs + stopsSum L ∧
      (L.foldl (fun (pr : ℕ × DayAccum K) stop =>
        ( pr.1 + stop.pigs,
          { pr.2 with
            total_pigs := pr.2.total_pigs + stop.pigs,
            total_kg := pr.2.total_kg + (stop.pigs : K) * snapshot stop.id,
            farms := applyStop week stop pr.2.farms } )) p).2.total_kg =
          p.2.total_kg + (L.map (specStopKg snapshot)).sum ∧
      (L.foldl (fun (pr : ℕ × DayAccum K) stop =>
        ( pr.1 + stop.pigs,
          { pr.2 with
            total_pigs := pr.2.total_pigs + stop.pigs,
            total_kg := pr.2.total_kg + (stop.pigs : K) * snapshot stop.id,
            farms := applyStop week stop pr.2.farms } )) p).2.total_distance_km =
          p.2.total_distance_km ∧
      (L.foldl (fun (pr : ℕ × DayAccum K) stop =>
        ( pr.1 + stop.pigs,
          { pr.2 with
            total_pigs := pr.2.total_pigs + stop.pigs,
            total_kg := pr.2.total_kg + (stop.pigs : K) * snapshot stop.id,
            farms := applyStop week stop pr.2.farms } )) p).2.total_trip_cost_euros =
          p.2.total_trip_cost_euros := by
  intro L
  induction L with
  | nil =>
    intro p
    refine ⟨?_, ?_, ?_, rfl, rfl⟩ <;> simp [stopsSum]
  | cons s rest ih =>
    intro p
    simp only [List.foldl_cons]
    obtain ⟨i1, i2, i3, i4, i5⟩ := ih
      (p.1 + s.pigs,
        { p.2 with
          total_pigs := p.2.total_pigs + s.pigs,
          total_kg := p.2.total_kg + (s.pigs : K) * snapshot s.id,
          farms := applyStop week s p.2.farms })
    refine ⟨?_, ?_, ?_, ?_, ?_⟩
    · rw [i1]; simp [stopsSum]; omega
    · rw [i2]; simp [stopsSum]; omega
    · rw [i3]; simp [specStopKg]; ring
    · rw [i4]
    · rw [i5]

lemma processTruck_fields (week : ℕ) (snapshot : String → K) (Q : ℕ) (Ct : K) (hQ : 0 < Q)
    (acc : DayAccum K) (t : TruckRoute K) :
    (processTruck week snapshot Q Ct acc t).total_pigs = acc.total_pigs + routeHead t ∧
    (processTruck week snapshot Q Ct acc t).total_kg =
      acc.total_kg + (t.route.map (specStopKg snapshot)).sum ∧
    (processTruck week snapshot Q Ct acc t).total_distance_km =
      acc.total_distance_km + t.distance_km ∧
    (processTruck week snapshot Q Ct acc t).total_trip_cost_euros =
      acc.total_trip_cost_euros + specTripCost Q Ct t := by
  obtain ⟨j1, j2, j3, j4, j5⟩ := processTruck_inner_accum week snapshot t.route
    (0, { acc with total_distance_km := acc.total_distance_km + t.distance_km })
  simp only [processTruck]
  split
  · rename_i hcond
    rw [j1] at hcond
    refine ⟨?_, ?_, ?_, ?_⟩
    · try dsimp only
      rw [j2] <;> try rfl
    · try dsimp only
      rw [j3] <;> try rfl
    · try dsimp only
      rw [j4] <;> try rfl
    · try dsimp only
      rw [j5, j1, specTripCost,
        if_pos ⟨hcond.2.1, by simpa [stopsSum, routeHead] using hcond.2.2⟩]
      simp only [stopsSum, routeHead]
      try dsimp only
      ring
  · rename_i hcond
    rw [j1] at hcond
    have hns : specTripCost Q Ct t = 0 := by
      rw [specTripCost, if_neg]
      intro hc
      exact hcond ⟨hQ, hc.1, by simpa [stopsSum, routeHead] using hc.2⟩
    refine ⟨?_, ?_, ?_, ?_⟩
    · try dsimp only
      rw [j2] <;> try rfl
    · try dsimp only
      rw [j3] <;> try rfl
    · try dsimp only
      rw [j4] <;> try rfl
    · try dsimp only
      rw [j5, hns]
      try dsimp only
      ring

lemma processTruck_accum (week : ℕ) (snapshot : String → K) (Q : ℕ) (Ct : K) (hQ : 0 < Q) :
    ∀ (ts : List (TruckRoute K)) (acc : DayAccum K),
      (ts.foldl (processTruck week snapshot Q Ct) acc).total_pigs =
        acc.total_pigs + stopsSum (trucksStops ts) ∧
      (ts.foldl (processTruck week snapshot Q Ct) acc).total_kg =
        acc.total_kg + specTotalKg snapshot ts ∧
      (ts.foldl (processTruck week snapshot Q Ct) acc).total_distance_km =
        acc.total_distance_km + truckDistanceSum ts ∧
      (ts.foldl (processTruck week snapshot Q Ct) acc).total_trip_cost_euros =
        acc.total_trip_cost_euros + specTripCostSum Q Ct ts := by
  intro ts
  induction ts with
  | nil =>
    intro acc
    refine ⟨?_, ?_, ?_, ?_⟩ <;>
      simp [trucksStops, stopsSum, specTotalKg, truckDistanceSum, specTripCostSum]
  | cons t rest ih =>
    intro acc
    simp only [List.foldl_cons]
    obtain ⟨r1, r2, r3, r4⟩ := ih (processTruck week snapshot Q Ct acc t)
    obtain ⟨f1, f2, f3, f4⟩ := processTruck_fields week snapshot Q Ct hQ acc t
    refine ⟨?_, ?_, ?_, ?_⟩
    · rw [r1, f1]
      simp only [trucksStops, stopsSum, routeHead, List.map_cons, List.flatten_cons,
        List.map_append, List.sum_append]
      omega
    · rw [r2, f2]
      simp only [trucksStops, specTotalKg, List.map_cons, List.flatten_cons,
        List.map_append, List.sum_append]
      ring
    · rw [r3, f3]
      simp only [truckDistanceSum, List.map_cons, List.sum_cons]
      ring
    · rw [r4, f4]
      simp only [specTripCostSum, List.map_cons, List.sum_cons]
      ring

/-- C4: every emitted day record satisfies the reference economic equations:
totalKg and totalEuros are the 2-decimal roundings of the exact delivered mass
and of mass times price times (1 minus the weight penalty of the delivered mean
weight, defaulting to avg_pig_weight_kg on an empty day); fuelCostEuros is the
rounding of the sum of per-truck load-weighted trip costs (0 for a truck with
no head or no distance); truckCostEuros is trucks-that-day times
truck_cost_per_week / 7 (rounded), independent of planning_days_per_week;
netProfitEuros is the rounding of the full-precision revenue minus trip costs
minus truck cost; and revenue / (totalKg · p) = 1 − penalty whenever
totalKg · p is positive. -/
theorem C4_day_economics (dist : Location K → Location K → K) (P : PlanParams K)
    (sol : Option (List (List ℕ))) (d : ℕ) (farms : List (PlannerFarm K))
    (hQ : 0 < P.truck_capacity) :
    (planDay dist P sol d farms).1.totalKg =
      round2 (specTotalKg (snapshotWeight farms P.avg_pig_weight_kg)
        (planDay dist P sol d farms).1.trucks) ∧
    (planDay dist P sol d farms).1.totalEuros =
      round2 (specTotalKg (snapshotWeight farms P.avg_pig_weight_kg)
          (planDay dist P sol d farms).1.trucks * P.price_per_kg *
        (1 - compute_weight_penalty
          (if 0 < dayHead (planDay dist P sol d farms).1 then
            specTotalKg (snapshotWeight farms P.avg_pig_weight_kg)
              (planDay dist P sol d farms).1.trucks /
              (dayHead (planDay dist P sol d farms).1 : K)
          else P.avg_pig_weight_kg) 105 115 (15 / 100) (20 / 100))) ∧
    (planDay dist P sol d farms).1.fuelCostEuros =
      round2 (specTripCostSum P.truck_capacity (effectiveCostPerKm P)
        (planDay dist P sol d farms).1.trucks) ∧
    (planDay dist P sol d farms).1.truckCostEuros =
      round2 (((planDay dist P sol d farms).1.trucks.length : K) *
        (P.truck_cost_per_week / 7)) ∧
    (planDay dist P sol d farms).1.netProfitEuros =
      round2 (specTotalKg (snapshotWeight farms P.avg_pig_weight_kg)
          (planDay dist P sol d farms).1.trucks * P.price_per_kg *
        (1 - compute_weight_penalty
          (if 0 < dayHead (planDay dist P sol d farms).1 then
            specTotalKg (snapshotWeight farms P.avg_pig_weight_kg)
              (planDay dist P sol d farms).1.trucks /
              (dayHead (planDay dist P sol d farms).1 : K)
          else P.avg_pig_weight_kg) 105 115 (15 / 100) (20 / 100)) -
        specTripCostSum P.truck_capacity (effectiveCostPerKm P)
          (planDay dist P sol d farms).1.trucks -
        ((planDay dist P sol d farms).1.trucks.length : K) *
          (P.truck_cost_per_week / 7)) ∧
    (∀ π : K, 0 < specTotalKg (snapshotWeight farms P.avg_pig_weight_kg)
        (planDay dist P sol d farms).1.trucks * P.price_per_kg →
      specTotalKg (snapshotWeight farms P.avg_pig_weight_kg)
          (planDay dist P sol d farms).1.trucks * P.price_per_kg * (1 - π) /
        (specTotalKg (snapshotWeight farms P.avg_pig_weight_kg)
          (planDay dist P sol d farms).1.trucks * P.price_per_kg) = 1 - π) := by
  have hdiv : ∀ (x π : K), 0 < x → x * (1 - π) / x = 1 - π := by
    intro x π hx
    exact mul_div_cancel_left₀ _ (ne_of_gt hx)
  obtain ⟨a1, a2, a3, a4⟩ := processTruck_accum (d / P.planning_days_per_week)
    (snapshotWeight farms P.avg_pig_weight_kg) P.truck_capacity (effectiveCostPerKm P) hQ
    (dayTrucks dist P sol d farms)
    { total_pigs := 0, total_kg := 0, total_distance_km := 0,
      total_trip_cost_euros := 0, farms := farms }
  have ha1 : (dayAccum dist P sol d farms).total_pigs =
      stopsSum (trucksStops (dayTrucks dist P sol d farms)) := by
    rw [dayAccum]; simpa using a1
  have ha2 : (dayAccum dist P sol d farms).total_kg =
      specTotalKg (snapshotWeight farms P.avg_pig_weight_kg) (dayTrucks dist P sol d farms) := by
    rw [dayAccum]; simpa using a2
  have ha4 : (dayAccum dist P sol d farms).total_trip_cost_euros =
      specTripCostSum P.truck_capacity (effectiveCostPerKm P) (dayTrucks dist P sol d farms) := by
    rw [dayAccum]; simpa using a4
  have hdh : (List.map routeHead (dayTrucks dist P sol d farms)).sum =
      (dayAccum dist P sol d farms).total_pigs :=
    (sumHeads_eq_stopsSum (dayTrucks dist P sol d farms)).trans ha1.symm
  simp only [planDay]
  split
  · refine ⟨?_, ?_, ?_, ?_, ?_, fun π hx => hdiv _ π hx⟩ <;>
      simp [blankDay, specTotalKg, trucksStops, specTripCostSum, round2_zero,
        dayHead, sumHeads]
  · refine ⟨?_, ?_, ?_, ?_, ?_, fun π hx => hdiv _ π hx⟩
    · try dsimp only
      rw [ha2] <;> try rfl
    · simp only [dayHead]
      try dsimp only
      rw [hdh, ha2] <;> try rfl
    · try dsimp only
      rw [ha4] <;> try rfl
    · try dsimp only
      try rfl
    · simp only [dayHead]
      try dsimp only
      rw [hdh, ha2, ha4] <;> try rfl

def wFarms0 : List (PlannerFarm ℚ) :=
  initPlannerFarms wReq.core.avg_pig_weight_kg wReq.core.farms

/- ==================== C9: daily weight growth ==================== -/

lemma snapshotWeight_map (f : PlannerFarm K → PlannerFarm K)
    (hb : ∀ e, (f e).base = e.base) (hw : ∀ e, (f e).avg_weight_kg = e.avg_weight_kg)
    (farms : List (PlannerFarm K)) (w0 : K) (i : String) :
    snapshotWeight (farms.map f) w0 i = snapshotWeight farms w0 i := by
  induction farms with
  | nil => rfl
  | cons e rest ih =>
    simp only [List.map_cons, snapshotWeight]
    by_cases hi : e.base.id = i
    · rw [List.find?_cons_of_pos _ (by simp [hb, hi]),
        List.find?_cons_of_pos _ (by simpa using hi)]
      simp [hw]
    · rw [List.find?_cons_of_neg _ (by simp [hb, hi]),
        List.find?_cons_of_neg _ (by simpa using hi)]
      exact ih

lemma remainingOf_map (f : PlannerFarm K → PlannerFarm K)
    (hb : ∀ e, (f e).base = e.base) (hr : ∀ e, (f e).remaining_pigs = e.remaining_pigs)
    (farms : List (PlannerFarm K)) (i : String) :
    remainingOf (farms.map f) i = remainingOf farms i := by
  induction farms with
  | nil => rfl
  | cons e rest ih =>
    simp only [List.map_cons, remainingOf]
    by_cases hi : e.base.id = i
    · rw [List.find?_cons_of_pos _ (by simp [hb, hi]),
        List.find?_cons_of_pos _ (by simpa using hi)]
      simp [hr]
    · rw [List.find?_cons_of_neg _ (by simp [hb, hi]),
        List.find?_cons_of_neg _ (by simpa using hi)]
      exact ih

lemma snapshotWeight_applyStops (week : ℕ) :
    ∀ (L : List RouteStop) (fs : List (PlannerFarm K)) (w0 : K) (i : String),
      snapshotWeight (L.foldl (fun fs stop => applyStop week stop fs) fs) w0 i =
        snapshotWeight fs w0 i := by
  intro L
  induction L with
  | nil => intro fs w0 i; rfl
  | cons s rest ih =>
    intro fs w0 i
    simp only [List.foldl_cons]
    rw [ih]
    exact snapshotWeight_map _ (by intro e; split <;> rfl) (by intro e; split <;> rfl) fs w0 i

lemma remainingOf_growWeights (g : K) (farms : List (PlannerFarm K)) (i : String) :
    remainingOf (growWeights g farms) i = remainingOf farms i := by
  simp only [growWeights]
  split
  · exact remainingOf_map _ (by intro e; split <;> rfl) (by intro e; split <;> rfl) farms i
  · rfl

lemma snapshotWeight_growWeights (g : K) (farms : List (PlannerFarm K)) (w0 : K) (s : String)
    (hrem : 0 < remainingOf farms s) (hg : 0 < g ∨ g = 0) :
    snapshotWeight (growWeights g farms) w0 s = snapshotWeight farms w0 s + g := by
  rcases hg with hg | hg
  · simp only [growWeights, if_pos hg]
    induction farms with
    | nil => simp [remainingOf] at hrem
    | cons e rest ih =>
      by_cases hi : e.base.id = s
      · have hre : 0 < e.remaining_pigs := by
          rw [remainingOf, List.find?_cons_of_pos _ (by simpa using hi)] at hrem
          simpa using hrem
        simp only [List.map_cons, if_pos hre, snapshotWeight]
        rw [List.find?_cons_of_pos _ (by simpa using hi),
          List.find?_cons_of_pos _ (by simpa using hi)]
        simp
      · rw [remainingOf, List.find?_cons_of_neg _ (by simpa using hi)] at hrem
        have hrem' : 0 < remainingOf rest s := hrem
        simp only [List.map_cons, snapshotWeight]
        rw [List.find?_cons_of_neg _ ?hneg, List.find?_cons_of_neg _ (by simpa using hi)]
        · exact ih hrem'
        · split <;> simpa using hi
  · subst hg
    simp [growWeights]

lemma dailyWeightGain_cases (P : PlanParams K) :
    0 < dailyWeightGain P ∨ dailyWeightGain P = 0 := by
  rw [dailyWeightGain]
  split
  · rename_i h
    exact Or.inl (div_pos h.1 (by exact_mod_cast h.2))
  · exact Or.inr rfl

lemma planDay_snapshot_step (dist : Location K → Location K → K) (P : PlanParams K)
    (sol : Option (List (List ℕ))) (d : ℕ) (farms : List (PlannerFarm K)) (s : String)
    (hrem : 0 < remainingOf (planDay dist P sol d farms).2 s) :
    snapshotWeight (planDay dist P sol d farms).2 P.avg_pig_weight_kg s =
      snapshotWeight farms P.avg_pig_weight_kg s + dailyWeightGain P := by
  rw [planDay_farms_eq] at hrem ⊢
  rw [remainingOf_growWeights] at hrem
  rw [snapshotWeight_growWeights _ _ _ _ hrem (dailyWeightGain_cases P)]
  rw [snapshotWeight_applyStops]

/-- C9: with daily gain g = weekly_weight_gain_kg / planning_days_per_week, a
site that still holds inventory at the end of each of the first t planned days
(zero-activity days included) has its start-of-day mean weight on day t equal
to its initial weight plus t times g; in particular its delivered head on day t
is valued at that grown weight. -/
theorem C9_weight_growth (dist : Location K → Location K → K)
    (oracle : ℕ → Option (List (List ℕ))) (req : OptimizationRequest K) (s : String)
    (t : ℕ) (ht : t ≤ req.num_days)
    (hpos : ∀ d, d < t → 0 < remainingOf (planLoop dist req.core oracle (d + 1)).2 s) :
    snapshotWeight (planLoop dist req.core oracle t).2 req.core.avg_pig_weight_kg s =
      snapshotWeight (initPlannerFarms req.core.avg_pig_weight_kg req.core.farms)
        req.core.avg_pig_weight_kg s + (t : K) * dailyWeightGain req.core := by
  induction t with
  | zero => simp [planLoop]
  | succ n ih =>
    have hstep := planDay_snapshot_step dist req.core (oracle n) n
      (planLoop dist req.core oracle n).2 s (hpos n (Nat.lt_succ_self n))
    have hloop : (planLoop dist req.core oracle (n + 1)).2 =
        (planDay dist req.core (oracle n) n (planLoop dist req.core oracle n).2).2 := rfl
    rw [hloop, hstep, ih (by omega) (fun d hd => hpos d (by omega))]
    push_cast
    ring

set_option maxRecDepth 1000000 in
set_option maxHeartbeats 4000000 in
theorem C9_weight_growth_witness :
    6 ≤ wReq.num_days ∧
    (∀ d, d < 6 → 0 < remainingOf (planLoop wDist wReq.core wOracle (d + 1)).2 "F2") ∧
    snapshotWeight (planLoop wDist wReq.core wOracle 6).2 wReq.core.avg_pig_weight_kg "F2" =
      snapshotWeight wFarms0 wReq.core.avg_pig_weight_kg "F2" +
        (6 : ℚ) * dailyWeightGain wReq.core ∧
    snapshotWeight (planLoop wDist wReq.core wOracle 6).2 wReq.core.avg_pig_weight_kg "F2" =
      110 + 6 * (2 / 5) :=
  ⟨by norm_num [wReq],
   of_decide_eq_true (by with_unfolding_all rfl),
   C9_weight_growth wDist wOracle wReq "F2" 6 (by norm_num [wReq])
     (of_decide_eq_true (by with_unfolding_all rfl)),
   of_decide_eq_true (by with_unfolding_all rfl)⟩

theorem C4_day_economics_witness :
    0 < wReq.core.truck_capacity ∧
    ((planDay wDist wReq.core none 0 wFarms0).1.totalKg =
      round2 (specTotalKg (snapshotWeight wFarms0 wReq.core.avg_pig_weight_kg)
        (planDay wDist wReq.core none 0 wFarms0).1.trucks) ∧
     (planDay wDist wReq.core none 0 wFarms0).1.truckCostEuros =
      round2 (((planDay wDist wReq.core none 0 wFarms0).1.trucks.length : ℚ) *
        (wReq.core.truck_cost_per_week / 7))) :=
  ⟨by norm_num [OptimizationRequest.core, wReq],
   ⟨(C4_day_economics wDist wReq.core none 0 wFarms0
       (by norm_num [OptimizationRequest.core, wReq])).1,
    (C4_day_economics wDist wReq.core none 0 wFarms0
       (by norm_num [OptimizationRequest.core, wReq])).2.2.2.1⟩⟩

/-- C5: the weight-penalty function realises the spec table exactly: 0 on the
degenerate region w ≤ 0 (which takes precedence over the extreme condition
w < 100), 0 on the ideal band [105, 115], 0.20 on (0, 100) and above 120,
0.15 on the shoulders [100, 105) and (115, 120], and nothing else. -/
theorem C5_weight_penalty_table (w : K) :
    (w ≤ 0 → compute_weight_penalty w 105 115 (15 / 100) (20 / 100) = 0) ∧
    (0 < w → w < 100 → compute_weight_penalty w 105 115 (15 / 100) (20 / 100) = 20 / 100) ∧
    (100 ≤ w → w < 105 → compute_weight_penalty w 105 115 (15 / 100) (20 / 100) = 15 / 100) ∧
    (105 ≤ w → w ≤ 115 → compute_weight_penalty w 105 115 (15 / 100) (20 / 100) = 0) ∧
    (115 < w → w ≤ 120 → compute_weight_penalty w 105 115 (15 / 100) (20 / 100) = 15 / 100) ∧
    (120 < w → compute_weight_penalty w 105 115 (15 / 100) (20 / 100) = 20 / 100) ∧
    (compute_weight_penalty w 105 115 (15 / 100) (20 / 100) = 0 ∨
      compute_weight_penalty w 105 115 (15 / 100) (20 / 100) = 15 / 100 ∨
      compute_weight_penalty w 105 115 (15 / 100) (20 / 100) = 20 / 100) := by
  simp only [compute_weight_penalty]
  split_ifs with h1 h2 h3
  · exact ⟨fun _ => rfl, fun hw _ => absurd hw (not_lt.mpr h1), fun ha _ => by linarith,
      fun ha _ => by linarith, fun ha _ => by linarith, fun hw => by linarith, Or.inl rfl⟩
  · exact ⟨fun hw => by linarith [h2.1], fun _ hw => by linarith [h2.1],
      fun _ hw => by linarith [h2.1], fun _ _ => rfl, fun hw _ => by linarith [h2.2],
      fun hw => by linarith [h2.2], Or.inl rfl⟩
  · refine ⟨fun hw => absurd hw h1, fun _ _ => rfl, ?_, ?_, ?_, fun _ => rfl,
      Or.inr (Or.inr rfl)⟩
    · intro ha hb; rcases h3 with h3 | h3 <;> linarith
    · intro ha hb; rcases h3 with h3 | h3 <;> linarith
    · intro ha hb; rcases h3 with h3 | h3 <;> linarith
  · have h4 := not_or.mp h3
    exact ⟨fun hw => absurd hw h1, fun _ hw => absurd hw h4.1, fun _ _ => rfl,
      fun ha hb => absurd ⟨ha, hb⟩ h2, fun _ _ => rfl, fun hw => absurd hw h4.2,
      Or.inr (Or.inl rfl)⟩

theorem C5_weight_penalty_table_witness :
    compute_weight_penalty (-1 : ℚ) 105 115 (15 / 100) (20 / 100) = 0 ∧
    compute_weight_penalty (50 : ℚ) 105 115 (15 / 100) (20 / 100) = 20 / 100 ∧
    compute_weight_penalty (102 : ℚ) 105 115 (15 / 100) (20 / 100) = 15 / 100 ∧
    compute_weight_penalty (110 : ℚ) 105 115 (15 / 100) (20 / 100) = 0 ∧
    compute_weight_penalty (118 : ℚ) 105 115 (15 / 100) (20 / 100) = 15 / 100 ∧
    compute_weight_penalty (130 : ℚ) 105 115 (15 / 100) (20 / 100) = 20 / 100 :=
  ⟨(C5_weight_penalty_table (-1)).1 (by norm_num),
   (C5_weight_penalty_table 50).2.1 (by norm_num) (by norm_num),
   (C5_weight_penalty_table 102).2.2.1 (by norm_num) (by norm_num),
   (C5_weight_penalty_table 110).2.2.2.1 (by norm_num) (by norm_num),
   (C5_weight_penalty_table 118).2.2.2.2.1 (by norm_num) (by norm_num),
   (C5_weight_penalty_table 130).2.2.2.2.2.1 (by norm_num)⟩

/-- C10: two accepted requests identical except for weekly_decline_rate (any
values in [0, 1]) yield identical plans — identical day records and summary —
since the planner core never reads the field (wall-clock id and start date are
external to the model). -/
theorem C10_decline_rate_is_inert (dist : Location K → Location K → K)
    (oracle : ℕ → Option (List (List ℕ))) (req : OptimizationRequest K) (a b : K)
    (ha0 : 0 ≤ a) (ha1 : a ≤ 1) (hb0 : 0 ≤ b) (hb1 : b ≤ 1) :
    optimize_routes dist oracle { req with weekly_decline_rate := a } =
      optimize_routes dist oracle { req with weekly_decline_rate := b } := rfl

theorem C10_decline_rate_is_inert_witness :
    (0 : ℚ) ≤ 0 ∧ (0 : ℚ) ≤ 1 ∧ (0 : ℚ) ≤ 1 ∧ (1 : ℚ) ≤ 1 ∧
    optimize_routes wDist wOracle { wReq with weekly_decline_rate := 0 } =
      optimize_routes wDist wOracle { wReq with weekly_decline_rate := 1 } :=
  ⟨le_refl 0, by norm_num, by norm_num, le_refl 1,
    C10_decline_rate_is_inert wDist wOracle wReq 0 1 (le_refl 0) (by norm_num)
      (by norm_num) (le_refl 1)⟩

/- ============ C3 amended: solver-path distinctness via a trace ============ -/

/- The stop `s` was emitted while visiting solver node `n`: `n` is a farm node
   (positive), the stop copies the id of the `n`-th active farm (0 is the
   depot), and its head count is capped by that farm's availability. -/
def StopFromNode (farms : List (Farm K)) (s : RouteStop) (n : ℕ) : Prop :=
  0 < n ∧ ∃ f, farms.get? (n - 1) = some f ∧ s.id = f.id ∧ s.pigs ≤ f.available_pigs

section SolverTrace

variable (dist : Location K → Location K → K) (active_farms : List (Farm K))
variable (locs : List (Location K)) (Q D S : ℕ)

lemma extractNodeStep_shape (st : ExtractState K) (node : ℕ) :
    (extractNodeStep dist active_farms locs Q D S st node).route_stops = st.route_stops ∨
    ∃ s, StopFromNode active_farms s node ∧
      (extractNodeStep dist active_farms locs Q D S st node).route_stops =
        st.route_stops ++ [s] := by
  simp only [extractNodeStep]
  repeat' split
  all_goals try exact Or.inl rfl
  all_goals
    exact Or.inr ⟨_, ⟨by assumption, _, by assumption, rfl, min_le_left _ _⟩, rfl⟩

lemma extract_fold_trace (nodes : List ℕ) :
    ∀ st : ExtractState K,
      ∃ (new : List RouteStop) (used : List ℕ),
        used.Sublist nodes ∧
        (nodes.foldl (extractNodeStep dist active_farms locs Q D S) st).route_stops =
          st.route_stops ++ new ∧
        List.Forall₂ (StopFromNode active_farms) new used := by
  induction nodes with
  | nil =>
    intro st
    exact ⟨[], [], List.nil_sublist _, (List.append_nil _).symm, List.Forall₂.nil⟩
  | cons n rest ih =>
    intro st
    rcases extractNodeStep_shape dist active_farms locs Q D S st n with hsame | ⟨s, hsn, happ⟩
    · rcases ih (extractNodeStep dist active_farms locs Q D S st n) with
        ⟨new, used, hsub, heq, hrel⟩
      refine ⟨new, used, hsub.cons n, ?_, hrel⟩
      simp only [List.foldl_cons]
      rw [heq, hsame]
    · rcases ih (extractNodeStep dist active_farms locs Q D S st n) with
        ⟨new, used, hsub, heq, hrel⟩
      refine ⟨s :: new, n :: used, hsub.cons₂ n, ?_, List.Forall₂.cons hsn hrel⟩
      simp only [List.foldl_cons]
      rw [heq, happ, List.append_assoc]
      rfl

lemma extractVehicle_trace (c0 : ℕ) (nodes : List ℕ) :
    ∃ used : List ℕ, used.Sublist nodes ∧
      List.Forall₂ (StopFromNode active_farms)
        (extractVehicle dist active_farms locs Q D S c0 nodes).1 used := by
  rcases extract_fold_trace dist active_farms locs Q D S nodes
      { route_stops := [], route_load := 0, route_distance := 0, previous_node := 0,
        stops_count := 0, total_collected := c0 } with ⟨new, used, hsub, heq, hrel⟩
  refine ⟨used, hsub, ?_⟩
  have h1 : (extractVehicle dist active_farms locs Q D S c0 nodes).1 = new := by
    simp only [extractVehicle]
    rw [heq]
    simp
  rw [h1]
  exact hrel

lemma extractRoutesGo_trace (vehicles : List (List ℕ)) :
    ∀ (vid coll : ℕ) (acc : List (TruckRoute K)) (accd : K),
      ∃ (new : List RouteStop) (used : List ℕ),
        used.Sublist vehicles.flatten ∧
        trucksStops (extractRoutesGo dist active_farms locs Q D S
          vehicles vid coll acc accd).1 = trucksStops acc ++ new ∧
        List.Forall₂ (StopFromNode active_farms) new used := by
  induction vehicles with
  | nil =>
    intro vid coll acc accd
    exact ⟨[], [], List.nil_sublist _, (List.append_nil _).symm, List.Forall₂.nil⟩
  | cons nodes rest ih =>
    intro vid coll acc accd
    rcases extractVehicle_trace dist active_farms locs Q D S coll nodes with
      ⟨usedv, hsubv, hrelv⟩
    by_cases hemp : (extractVehicle dist active_farms locs Q D S coll nodes).1.isEmpty = true
    · simp only [extractRoutesGo, hemp, if_true]
      rcases ih (vid + 1) (extractVehicle dist active_farms locs Q D S coll nodes).2.2
        acc accd with ⟨new, used, hsub, heq, hrel⟩
      refine ⟨new, used, ?_, heq, hrel⟩
      rw [List.flatten_cons]
      exact hsub.trans (List.sublist_append_right nodes rest.flatten)
    · simp only [extractRoutesGo, hemp, if_false, Bool.false_eq_true]
      rcases ih (vid + 1) (extractVehicle dist active_farms locs Q D S coll nodes).2.2
        (acc ++ [⟨vid + 1, (extractVehicle dist active_farms locs Q D S coll nodes).1,
          round2 ((extractVehicle dist active_farms locs Q D S coll nodes).2.1 / 1000)⟩])
        (accd + (extractVehicle dist active_farms locs Q D S coll nodes).2.1 / 1000) with
        ⟨new, used, hsub, heq, hrel⟩
      refine ⟨(extractVehicle dist active_farms locs Q D S coll nodes).1 ++ new,
        usedv ++ used, ?_, ?_, List.rel_append hrelv hrel⟩
      · rw [List.flatten_cons]
        exact hsubv.append hsub
      · rw [heq]
        simp [trucksStops, List.append_assoc]

lemma extract_solver_routes_trace (slaughterhouse_location : Location K)
    (vehicles : List (List ℕ)) :
    ∃ used : List ℕ, used.Sublist vehicles.flatten ∧
      List.Forall₂ (StopFromNode active_farms)
        (trucksStops (extract_solver_routes dist active_farms slaughterhouse_location
          Q D S vehicles).1) used := by
  rcases extractRoutesGo_trace dist active_farms
      (slaughterhouse_location :: active_farms.map (fun f => f.location)) Q D S vehicles
      0 0 [] 0 with ⟨new, used, hsub, heq, hrel⟩
  refine ⟨used, hsub, ?_⟩
  have h1 : trucksStops (extract_solver_routes dist active_farms slaughterhouse_location
      Q D S vehicles).1 = new := by
    simp only [extract_solver_routes]
    rw [heq]
    simp [trucksStops]
  rw [h1]
  exact hrel

end SolverTrace

lemma StopFromNode_ids (farms : List (Farm K)) :
    ∀ {stops : List RouteStop} {used : List ℕ},
      List.Forall₂ (StopFromNode farms) stops used →
      stops.map (fun s => s.id) =
        used.map (fun n => (((farms.get? (n - 1)).map (fun f => f.id)).getD "")) := by
  intro stops used h
  induction h with
  | nil => rfl
  | cons hsn hrest ih =>
    rcases hsn with ⟨_, f, hget, hid, _⟩
    simp only [List.map_cons, hget, Option.map_some', Option.getD_some, hid, ih]

lemma StopFromNode_used_pos (farms : List (Farm K)) :
    ∀ {stops : List RouteStop} {used : List ℕ},
      List.Forall₂ (StopFromNode farms) stops used →
      ∀ n ∈ used, 0 < n ∧ n - 1 < farms.length := by
  intro stops used h
  induction h with
  | nil => simp
  | cons hsn hrest ih =>
    intro n hn
    rcases List.mem_cons.mp hn with rfl | hn
    · rcases hsn with ⟨hpos, f, hget, _⟩
      rcases List.get?_eq_some.mp hget with ⟨hlt, _⟩
      exact ⟨hpos, hlt⟩
    · exact ih n hn

lemma trace_ids_nodup (farms : List (Farm K))
    (hids : (farms.map (fun f => f.id)).Nodup)
    {stops : List RouteStop} {used : List ℕ}
    (hrel : List.Forall₂ (StopFromNode farms) stops used) (hused : used.Nodup) :
    (stops.map (fun s => s.id)).Nodup := by
  rw [StopFromNode_ids farms hrel]
  refine List.Nodup.map_on ?_ hused
  have key : ∀ k : ℕ, k - 1 < farms.length →
      (farms.map (fun f => f.id)).get? (k - 1) =
        some (((farms.get? (k - 1)).map (fun f => f.id)).getD "") := by
    intro k hk
    rw [List.get?_map]
    rcases hget : farms.get? (k - 1) with _ | f
    · exact absurd (List.get?_eq_none.mp hget) (by omega)
    · rfl
  intro n hn m hm heq
  obtain ⟨hposn, hltn⟩ := StopFromNode_used_pos farms hrel n hn
  obtain ⟨hposm, hltm⟩ := StopFromNode_used_pos farms hrel m hm
  have hsome : (farms.map (fun f => f.id)).get? (n - 1) =
      (farms.map (fun f => f.id)).get? (m - 1) := by
    rw [key n hltn, key m hltm, heq]
  have := List.get?_inj (by simpa using hltn) hids hsome
  omega

lemma trace_used_nodup (farms : List (Farm K)) {stops : List RouteStop} {used : List ℕ}
    (hrel : List.Forall₂ (StopFromNode farms) stops used)
    {nodes : List ℕ} (hsub : used.Sublist nodes)
    (hnodes : (nodes.filter (fun n => decide (0 < n))).Nodup) : used.Nodup := by
  have hpos : ∀ n ∈ used, 0 < n := fun n hn => (StopFromNode_used_pos farms hrel n hn).1
  have hfilter : used.filter (fun n => decide (0 < n)) = used :=
    List.filter_eq_self.mpr (fun a ha => by simpa using hpos a ha)
  have hsubf : (used.filter (fun n => decide (0 < n))).Sublist
      (nodes.filter (fun n => decide (0 < n))) := hsub.filter _
  rw [hfilter] at hsubf
  exact hnodes.sublist hsubf

lemma optimize_routes_for_day_ids_nodup (dist : Location K → Location K → K)
    (farms : List (Farm K)) (sl : Slaughterhouse K) (Q D S : ℕ)
    (vehicles : List (List ℕ))
    (hids : (farms.map (fun f => f.id)).Nodup)
    (hnodes : (vehicles.flatten.filter (fun n => decide (0 < n))).Nodup) :
    ((trucksStops (optimize_routes_for_day dist farms sl Q D S (some vehicles)).1).map
      (fun s => s.id)).Nodup := by
  simp only [optimize_routes_for_day]
  split
  · simp [trucksStops]
  · split
    · simp [trucksStops]
    · have hact : ((farms.filter (fun f => 0 < f.available_pigs)).map
          (fun f => f.id)).Nodup :=
        hids.sublist ((List.filter_sublist farms).map (fun f => f.id))
      rcases extract_solver_routes_trace dist (farms.filter (fun f => 0 < f.available_pigs))
        Q D S sl.location vehicles with ⟨used, hsub, hrel⟩
      exact trace_ids_nodup _ hact hrel (trace_used_nodup _ hrel hsub hnodes)

lemma dayFarms_ids_sublist (week : ℕ) :
    ∀ farms : List (PlannerFarm K),
      ((dayFarms week farms).map (fun f => f.id)).Sublist (plannerKeys farms)
  | [] => by simp [dayFarms, plannerKeys]
  | e :: rest => by
    have ih := dayFarms_ids_sublist week rest
    have hk : plannerKeys (e :: rest) = e.base.id :: plannerKeys rest := by
      simp [plannerKeys]
    by_cases h1 : e.remaining_pigs ≤ 0
    · have h : dayFarms week (e :: rest) = dayFarms week rest := by
        simp [dayFarms, List.filterMap_cons, h1]
      rw [h, hk]
      exact ih.trans (List.sublist_cons_self _ _)
    · by_cases h2 : week ∈ e.weeks_visited
      · have h : dayFarms week (e :: rest) = dayFarms week rest := by
          simp [dayFarms, List.filterMap_cons, h1, h2]
        rw [h, hk]
        exact ih.trans (List.sublist_cons_self _ _)
      · have h : (dayFarms week (e :: rest)).map (fun f => f.id) =
            e.base.id :: (dayFarms week rest).map (fun f => f.id) := by
          simp [dayFarms, List.filterMap_cons, h1, h2]
        rw [h, hk]
        exact ih.cons₂ _

lemma dayFarms_ids_nodup (week : ℕ) (farms : List (PlannerFarm K))
    (h : (plannerKeys farms).Nodup) :
    ((dayFarms week farms).map (fun f => f.id)).Nodup :=
  h.sublist (dayFarms_ids_sublist week farms)

lemma planDay_ids_nodup (dist : Location K → Location K → K) (P : PlanParams K)
    (vehicles : List (List ℕ)) (d : ℕ) (farms : List (PlannerFarm K))
    (hkeys : (plannerKeys farms).Nodup)
    (hnodes : (vehicles.flatten.filter (fun n => decide (0 < n))).Nodup) :
    (dayStopIds (planDay dist P (some vehicles) d farms).1).Nodup := by
  simp only [planDay]
  split
  · simp [blankDay, dayStopIds]
  · rw [dayStopIds_eq]
    exact optimize_routes_for_day_ids_nodup dist _ P.slaughterhouse P.truck_capacity
      P.slaughterhouse.daily_capacity 3 vehicles
      (dayFarms_ids_nodup _ farms hkeys) hnodes

/-- C3 (amended): within a single emitted day record the stops across all
trucks reference pairwise distinct farm ids on the solver-extraction path,
i.e. whenever the external solver returns a solution visiting each farm node
at most once (as a VRP solution does); the greedy fallback can split one
site's pickup across two trucks in the same day record (see the
counterexample), so the invariant does not hold unconditionally on that
path. -/
theorem C3_distinct_sites_solver_path (dist : Location K → Location K → K)
    (oracle : ℕ → Option (List (List ℕ))) (req : OptimizationRequest K) (d : ℕ)
    (hsome : ∀ t, oracle t ≠ none)
    (hnodes : ∀ t v, oracle t = some v →
      (v.flatten.filter (fun n => decide (0 < n))).Nodup) :
    (dayStopIds ((optimize_routes dist oracle req).days.getD d (blankDay 0))).Pairwise
      (fun a b => a ≠ b) := by
  have hdays : (optimize_routes dist oracle req).days =
      (planLoop dist req.core oracle req.core.num_days).1 := rfl
  rw [hdays]
  by_cases hd : d < req.core.num_days
  · rw [planLoop_getD dist req.core oracle _ d hd]
    rcases ho : oracle d with _ | v
    · exact absurd ho (hsome d)
    · exact planDay_ids_nodup dist req.core v d _
        (planLoop_keys_nodup dist req.core oracle d) (hnodes d v ho)
  · rw [List.getD_eq_default _ _ (by rw [planLoop_length]; omega)]
    simp [dayStopIds, blankDay]

theorem C3_distinct_sites_solver_path_witness :
    (∀ t, wOracleSome t ≠ none) ∧
    (∀ t v, wOracleSome t = some v →
      (v.flatten.filter (fun n => decide (0 < n))).Nodup) ∧
    (dayStopIds ((optimize_routes wDist wOracleSome wReq).days.getD 0
      (blankDay 0))).Pairwise (fun a b => a ≠ b) :=
  ⟨fun _ => Option.some_ne_none _,
   fun t v hv => by
     have hv' : v = [[0]] := by simpa [wOracleSome] using hv.symm
     subst hv'
     decide,
   C3_distinct_sites_solver_path wDist wOracleSome wReq 0
     (fun _ => Option.some_ne_none _)
     (fun t v hv => by
       have hv' : v = [[0]] := by simpa [wOracleSome] using hv.symm
       subst hv'
       decide)⟩

/- ==================== C7: inventory conservation ==================== -/

/- Head collected for one site id out of a stop list / a day record. -/
def collectFor (s : String) (l : List RouteStop) : ℕ :=
  (l.map (fun x => if x.id = s then x.pigs else 0)).sum

def dayCollect (s : String) (d : OptimizationDay K) : ℕ :=
  collectFor s (trucksStops d.trucks)

/- The head count a farm list offers for one site id (first matching entry),
   and the same summed over every matching entry. -/
def availIn (fs : List (Farm K)) (s : String) : ℕ :=
  ((fs.find? (fun f => f.id = s)).map (fun f => f.available_pigs)).getD 0

def availSum (s : String) (fs : List (Farm K)) : ℕ :=
  (fs.map (fun f => if f.id = s then f.available_pigs else 0)).sum

lemma collectFor_append (s : String) (a b : List RouteStop) :
    collectFor s (a ++ b) = collectFor s a + collectFor s b := by
  simp [collectFor]

lemma find?_farm_of_mem (fs : List (Farm K)) (hk : (fs.map (fun f => f.id)).Nodup)
    (f : Farm K) (hf : f ∈ fs) : fs.find? (fun x => x.id = f.id) = some f := by
  induction fs with
  | nil => simp at hf
  | cons x rest ih =>
    simp only [List.map_cons, List.nodup_cons] at hk
    rcases List.mem_cons.mp hf with rfl | hmem
    · exact List.find?_cons_of_pos _ (by simp)
    · have hx : ¬ x.id = f.id := by
        intro hcontra
        exact hk.1 (hcontra ▸ List.mem_map.mpr ⟨f, hmem, rfl⟩)
      rw [List.find?_cons_of_neg _ (by simpa using hx)]
      exact ih hk.2 hmem

lemma collectFor_zero (s : String) (l : List RouteStop) (h : ∀ x ∈ l, x.id ≠ s) :
    collectFor s l = 0 := by
  refine List.sum_eq_zero ?_
  intro v hv
  rcases List.mem_map.mp hv with ⟨x, hx, rfl⟩
  rw [if_neg (h x hx)]

/- On a duplicate-free stop list drawn from a duplicate-free farm list, the
   head collected for a site is bounded by that site's offer. -/
lemma collectFor_le_of_nodup (fs : List (Farm K)) (hk : (fs.map (fun f => f.id)).Nodup) :
    ∀ (l : List RouteStop), (l.map (fun x => x.id)).Nodup →
      (∀ x ∈ l, ∃ f ∈ fs, x.id = f.id ∧ x.pigs ≤ f.available_pigs) →
      ∀ s, collectFor s l ≤ availIn fs s := by
  intro l
  induction l with
  | nil => intro _ _ s; simp [collectFor]
  | cons x rest ih =>
    intro hl hmem s
    simp only [List.map_cons, List.nodup_cons] at hl
    have hrest : ∀ y ∈ rest, ∃ f ∈ fs, y.id = f.id ∧ y.pigs ≤ f.available_pigs :=
      fun y hy => hmem y (List.mem_cons_of_mem x hy)
    have hcons : collectFor s (x :: rest) =
        (if x.id = s then x.pigs else 0) + collectFor s rest := by
      simp [collectFor]
    by_cases hxs : x.id = s
    · have hzero : collectFor s rest = 0 := by
        refine collectFor_zero s rest ?_
        intro y hy hys
        exact hl.1 (by rw [hxs, ← hys]; exact List.mem_map.mpr ⟨y, hy, rfl⟩)
      rcases hmem x (List.mem_cons_self _ _) with ⟨f, hffs, hid, hle⟩
      have hfind : fs.find? (fun g => g.id = s) = some f := by
        rw [← hxs, hid]
        exact find?_farm_of_mem fs hk f hffs
      rw [hcons, if_pos hxs, hzero, availIn, hfind]
      simpa using hle
    · rw [hcons, if_neg hxs]
      simpa using ih hl.2 hrest s

lemma StopFromNode_mem (fs : List (Farm K)) :
    ∀ {stops : List RouteStop} {used : List ℕ},
      List.Forall₂ (StopFromNode fs) stops used →
      ∀ x ∈ stops, ∃ f ∈ fs, x.id = f.id ∧ x.pigs ≤ f.available_pigs := by
  intro stops used h
  induction h with
  | nil => simp
  | cons hsn hrest ih =>
    intro x hx
    rcases List.mem_cons.mp hx with rfl | hx
    · rcases hsn with ⟨_, f, hget, hid, hle⟩
      exact ⟨f, List.get?_mem hget, hid, hle⟩
    · exact ih x hx

/- Greedy path: the loop for one farm collects at most that farm's head. -/
def gCollect (s : String) (st : GreedyState K) : ℕ :=
  collectFor s (trucksStops st.trucks) + collectFor s st.current_route

lemma gCollect_addStop (dist : Location K → Location K → K) (fs : List (Farm K))
    (sl : Location K) (farm : Farm K) (c : ℕ) (st : GreedyState K) (s : String) :
    gCollect s (greedyAddStop dist fs sl farm c st) =
      gCollect s st + (if farm.id = s then c else 0) := by
  simp [gCollect, greedyAddStop, collectFor]
  omega

lemma gCollect_close (dist : Location K → Location K → K) (fs : List (Farm K))
    (sl : Location K) (st : GreedyState K) (s : String) :
    gCollect s (closeCurrentRoute dist fs sl st) = gCollect s st := by
  simp only [closeCurrentRoute]
  split
  · rename_i hemp
    have he : st.current_route = [] := by simpa using hemp
    simp [gCollect, he, collectFor]
  · simp [gCollect, trucksStops, collectFor]

lemma greedyFarmLoop_collect (dist : Location K → Location K → K) (fs : List (Farm K))
    (sl : Location K) (Q D : ℕ) (farm : Farm K) (s : String) :
    ∀ (fuel pigs : ℕ) (st : GreedyState K),
      gCollect s (greedyFarmLoop dist fs sl Q D farm fuel pigs st) ≤
        gCollect s st + (if farm.id = s then pigs else 0) := by
  intro fuel
  induction fuel with
  | zero => intro pigs st; exact Nat.le_add_right _ _
  | succ n ih =>
    intro pigs st
    simp only [greedyFarmLoop]
    split
    · exact Nat.le_add_right _ _
    · set c := min pigs (min (Q - st.current_load) (D - st.total_collected)) with hc
      have hcle : c ≤ pigs := min_le_left _ _
      set st1 := if 0 < c then greedyAddStop dist fs sl farm c st else st with hst1
      have h1 : gCollect s st1 ≤ gCollect s st + (if farm.id = s then c else 0) := by
        rw [hst1]
        split
        · rw [gCollect_addStop]
        · exact Nat.le_add_right _ _
      set st2 := if Q ≤ st1.current_load ∨ D ≤ st1.total_collected then
          closeCurrentRoute dist fs sl st1 else st1 with hst2
      have h2 : gCollect s st2 = gCollect s st1 := by
        rw [hst2]
        split
        · rw [gCollect_close]
        · rfl
      split
      · refine le_trans (le_of_eq h2) (le_trans h1 ?_)
        by_cases hid : farm.id = s <;> simp only [if_pos, if_neg, hid, if_true, if_false] <;>
          omega
      · refine le_trans (ih (pigs - c) st2) ?_
        rw [h2]
        refine le_trans (Nat.add_le_add_right h1 _) ?_
        by_cases hid : farm.id = s <;> simp only [if_pos, if_neg, hid, if_true, if_false] <;>
          omega

lemma greedy_collect_bound (dist : Location K → Location K → K) (fs : List (Farm K))
    (sl : Location K) (Q D : ℕ) (s : String) :
    collectFor s (trucksStops (greedy_route_assignment dist fs sl Q D).1) ≤ availSum s fs := by
  simp only [greedy_route_assignment]
  have hfold : ∀ (l : List (Farm K)) (st : GreedyState K),
      gCollect s (l.foldl
        (fun st farm => greedyFarmLoop dist fs sl Q D farm
          (2 * farm.available_pigs + 2) farm.available_pigs st) st) ≤
        gCollect s st + availSum s l := by
    intro l
    induction l with
    | nil => intro st; simp [availSum]
    | cons f rest ihl =>
      intro st
      simp only [List.foldl_cons]
      refine le_trans (ihl _) ?_
      have hstep := greedyFarmLoop_collect dist fs sl Q D f s
        (2 * f.available_pigs + 2) f.available_pigs st
      simp only [availSum, List.map_cons, List.sum_cons]
      omega
  have hperm : availSum s (fs.insertionSort (greedyOrder dist sl)) = availSum s fs :=
    List.Perm.sum_eq ((List.perm_insertionSort _ fs).map _)
  have h0 : gCollect s
      ({ trucks := [], current_truck_id := 1, current_route := [],
         current_route_distance_km := 0, current_load := 0, total_collected := 0,
         total_distance_km := 0 } : GreedyState K) = 0 := by
    simp [gCollect, collectFor, trucksStops]
  refine le_trans (le_trans (Nat.le_add_right _ _) (le_of_eq
    (gCollect_close dist fs sl _ s))) ?_
  refine le_trans (hfold _ _) ?_
  rw [h0, hperm]
  omega

lemma availSum_le_availIn (fs : List (Farm K)) (hk : (fs.map (fun f => f.id)).Nodup)
    (s : String) : availSum s fs ≤ availIn fs s := by
  induction fs with
  | nil => simp [availSum, availIn]
  | cons f rest ih =>
    simp only [List.map_cons, List.nodup_cons] at hk
    by_cases hfs : f.id = s
    · have hzero : availSum s rest = 0 := by
        refine List.sum_eq_zero ?_
        intro v hv
        rcases List.mem_map.mp hv with ⟨g, hg, rfl⟩
        rw [if_neg]
        intro hgs
        exact hk.1 (by rw [hfs, ← hgs]; exact List.mem_map.mpr ⟨g, hg, rfl⟩)
      rw [availSum, List.map_cons, List.sum_cons, if_pos hfs]
      rw [availIn, List.find?_cons_of_pos _ (by simpa using hfs)]
      have hz2 : (rest.map (fun g => if g.id = s then g.available_pigs else 0)).sum = 0 :=
        hzero
      simp only [Option.map_some', Option.getD_some]
      omega
    · rw [availSum, List.map_cons, List.sum_cons, if_neg hfs]
      rw [availIn, List.find?_cons_of_neg _ (by simpa using hfs)]
      simpa [availSum, availIn] using ih hk.2

lemma availIn_filter_le (fs : List (Farm K)) (hk : (fs.map (fun f => f.id)).Nodup)
    (p : Farm K → Bool) (s : String) : availIn (fs.filter p) s ≤ availIn fs s := by
  rcases hfind : (fs.filter p).find? (fun f => f.id = s) with _ | f
  · simp [availIn, hfind]
  · have hmem : f ∈ fs.filter p := List.mem_of_find?_eq_some hfind
    have hid : f.id = s := by simpa using List.find?_some hfind
    have hfs : f ∈ fs := (List.mem_filter.mp hmem).1
    have hf2 : fs.find? (fun x => x.id = s) = some f := by
      rw [← hid]
      exact find?_farm_of_mem fs hk f hfs
    simp [availIn, hfind, hf2]

lemma optimize_routes_for_day_collect (dist : Location K → Location K → K)
    (fs : List (Farm K)) (sl : Slaughterhouse K) (Q D S : ℕ)
    (sol : Option (List (List ℕ)))
    (hk : (fs.map (fun f => f.id)).Nodup)
    (hsol : ∀ v, sol = some v → (v.flatten.filter (fun n => decide (0 < n))).Nodup)
    (s : String) :
    collectFor s (trucksStops (optimize_routes_for_day dist fs sl Q D S sol).1) ≤
      availIn fs s := by
  simp only [optimize_routes_for_day]
  split
  · simp [trucksStops, collectFor]
  · split
    · simp [trucksStops, collectFor]
    · have hact : ((fs.filter (fun f => 0 < f.available_pigs)).map (fun f => f.id)).Nodup :=
        hk.sublist ((List.filter_sublist fs).map (fun f => f.id))
      rcases sol with _ | v
      · exact le_trans (greedy_collect_bound dist _ sl.location Q D s)
          (le_trans (availSum_le_availIn _ hact s) (availIn_filter_le fs hk _ s))
      · rcases extract_solver_routes_trace dist (fs.filter (fun f => 0 < f.available_pigs))
          Q D S sl.location v with ⟨used, hsub, hrel⟩
        have hused := trace_used_nodup _ hrel hsub (hsol v rfl)
        have hlids := trace_ids_nodup _ hact hrel hused
        exact le_trans (collectFor_le_of_nodup _ hact _ hlids
            (StopFromNode_mem _ hrel) s)
          (availIn_filter_le fs hk _ s)

lemma remainingOf_nonneg (farms : List (PlannerFarm K))
    (hpos : ∀ e ∈ farms, 0 ≤ e.remaining_pigs) (s : String) :
    0 ≤ remainingOf farms s := by
  rcases hfind : farms.find? (fun e => e.base.id = s) with _ | e
  · simp [remainingOf, hfind]
  · have := hpos e (List.mem_of_find?_eq_some hfind)
    simpa [remainingOf, hfind] using this

/- The per-stop state update, in terms of the site's remaining head. -/
lemma remainingOf_applyStop (week : ℕ) (stop : RouteStop) :
    ∀ (farms : List (PlannerFarm K)) (s : String),
      remainingOf (applyStop week stop farms) s =
        if stop.id = s then max 0 (remainingOf farms s - (stop.pigs : K))
        else remainingOf farms s
  | [], s => by
    simp only [applyStop, List.map_nil, remainingOf, List.find?_nil, Option.map_none',
      Option.getD_none]
    split
    · exact (max_eq_left (by simp [sub_nonpos])).symm
    · rfl
  | e :: rest, s => by
    simp only [applyStop, List.map_cons]
    by_cases he : e.base.id = s
    · rw [remainingOf, List.find?_cons_of_pos _ (by split <;> simpa using he)]
      simp only [Option.map_some', Option.getD_some]
      have hr : remainingOf (e :: rest) s = e.remaining_pigs := by
        rw [remainingOf, List.find?_cons_of_pos _ (by simpa using he)]
        rfl
      by_cases hes : e.base.id = stop.id
      · rw [if_pos hes, if_pos (hes.symm.trans he), hr]
      · rw [if_neg hes, if_neg (fun h => hes (he.trans h.symm)), hr]
    · rw [remainingOf, List.find?_cons_of_neg _ (by split <;> simpa using he)]
      have hr : remainingOf (e :: rest) s = remainingOf rest s := by
        rw [remainingOf, List.find?_cons_of_neg _ (by simpa using he)]
        rfl
      rw [hr]
      exact remainingOf_applyStop week stop rest s

lemma clamp_sub (x c : K) (hc : 0 ≤ c) : max 0 (max 0 x - c) = max 0 (x - c) := by
  rcases le_total x 0 with hx | hx
  · rw [max_eq_left hx, max_eq_left (by linarith), max_eq_left (by linarith)]
  · rw [max_eq_right hx]

lemma applyStops_remaining (week : ℕ) :
    ∀ (L : List RouteStop) (farms : List (PlannerFarm K)) (s : String),
      0 ≤ remainingOf farms s →
      remainingOf (L.foldl (fun fs stop => applyStop week stop fs) farms) s =
        max 0 (remainingOf farms s - (collectFor s L : K))
  | [], farms, s => fun h => by
    simp only [List.foldl_nil, collectFor, List.map_nil, List.sum_nil, Nat.cast_zero,
      sub_zero]
    exact (max_eq_right h).symm
  | x :: L, farms, s => fun h => by
    simp only [List.foldl_cons]
    have hx := remainingOf_applyStop week x farms s
    have hnext : 0 ≤ remainingOf (applyStop week x farms) s := by
      rw [hx]
      split
      · exact le_max_left _ _
      · exact h
    rw [applyStops_remaining week L (applyStop week x farms) s hnext, hx]
    by_cases hxs : x.id = s
    · have hcoll : remainingOf farms s - (collectFor s (x :: L) : K) =
          remainingOf farms s - (x.pigs : K) - (collectFor s L : K) := by
        have hc : collectFor s (x :: L) = x.pigs + collectFor s L := by
          simp [collectFor, hxs]
        rw [hc]
        push_cast
        ring
      rw [hcoll, if_pos hxs, clamp_sub _ _ (Nat.cast_nonneg _)]
    · have hcoll : collectFor s (x :: L) = collectFor s L := by
        simp [collectFor, hxs]
      rw [hcoll, if_neg hxs]

lemma planDay_remaining_step (dist : Location K → Location K → K) (P : PlanParams K)
    (sol : Option (List (List ℕ))) (d : ℕ) (farms : List (PlannerFarm K)) (s : String)
    (h : 0 ≤ remainingOf farms s) :
    remainingOf (planDay dist P sol d farms).2 s =
      max 0 (remainingOf farms s -
        (dayCollect s (planDay dist P sol d farms).1 : K)) := by
  rw [planDay_farms_eq, remainingOf_growWeights,
    applyStops_remaining _ _ farms s h]
  rfl

/- Nonnegativity of each entry's remaining head is a trace invariant. -/
lemma mem_dictInsertFarm_elim (e : PlannerFarm K) :
    ∀ (l : List (PlannerFarm K)) (x : PlannerFarm K), x ∈ dictInsertFarm e l → x = e ∨ x ∈ l
  | [], x => by simp [dictInsertFarm]
  | y :: ys, x => by
    simp only [dictInsertFarm]
    split
    · intro h
      rcases List.mem_cons.mp h with rfl | h
      · exact Or.inl rfl
      · exact Or.inr (List.mem_cons_of_mem _ h)
    · intro h
      rcases List.mem_cons.mp h with rfl | h
      · exact Or.inr (List.mem_cons_self _ _)
      · rcases mem_dictInsertFarm_elim e ys x h with h' | h'
        · exact Or.inl h'
        · exact Or.inr (List.mem_cons_of_mem _ h')

lemma initPlannerFarms_mem (w : K) (fs : List (Farm K)) :
    ∀ e ∈ initPlannerFarms w fs, ∃ f ∈ fs, e = initFarmEntry w f := by
  refine foldl_preserve_mem _ (fun l => ∀ e ∈ l, ∃ f ∈ fs, e = initFarmEntry w f) fs
    ?_ [] (by simp)
  intro acc f hf hacc e he
  rcases mem_dictInsertFarm_elim _ acc e he with rfl | h
  · exact ⟨f, hf, rfl⟩
  · exact hacc e h

lemma initPlannerFarms_nonneg (w : K) (fs : List (Farm K)) :
    ∀ e ∈ initPlannerFarms w fs, 0 ≤ e.remaining_pigs := by
  intro e he
  rcases initPlannerFarms_mem w fs e he with ⟨f, _, rfl⟩
  simp [initFarmEntry]

lemma applyStop_nonneg (week : ℕ) (stop : RouteStop) (fs : List (PlannerFarm K))
    (h : ∀ e ∈ fs, 0 ≤ e.remaining_pigs) :
    ∀ e ∈ applyStop week stop fs, 0 ≤ e.remaining_pigs := by
  intro e he
  rcases List.mem_map.mp he with ⟨x, hx, rfl⟩
  try dsimp only
  split
  · exact le_max_left _ _
  · exact h x hx

lemma growWeights_nonneg (g : K) (fs : List (PlannerFarm K))
    (h : ∀ e ∈ fs, 0 ≤ e.remaining_pigs) :
    ∀ e ∈ growWeights g fs, 0 ≤ e.remaining_pigs := by
  intro e he
  simp only [growWeights] at he
  split at he
  · rcases List.mem_map.mp he with ⟨x, hx, rfl⟩
    try dsimp only
    split
    · exact h x hx
    · exact h x hx
  · exact h e he

lemma applyStops_nonneg (week : ℕ) :
    ∀ (L : List RouteStop) (fs : List (PlannerFarm K)),
      (∀ e ∈ fs, 0 ≤ e.remaining_pigs) →
      ∀ e ∈ L.foldl (fun fs stop => applyStop week stop fs) fs, 0 ≤ e.remaining_pigs := by
  intro L
  induction L with
  | nil => intro fs h; exact h
  | cons x L ih =>
    intro fs h
    simp only [List.foldl_cons]
    exact ih _ (applyStop_nonneg week x fs h)

lemma planDay_nonneg (dist : Location K → Location K → K) (P : PlanParams K)
    (sol : Option (List (List ℕ))) (d : ℕ) (farms : List (PlannerFarm K))
    (h : ∀ e ∈ farms, 0 ≤ e.remaining_pigs) :
    ∀ e ∈ (planDay dist P sol d farms).2, 0 ≤ e.remaining_pigs := by
  rw [planDay_farms_eq]
  exact growWeights_nonneg _ _ (applyStops_nonneg _ _ farms h)

lemma planLoop_nonneg (dist : Location K → Location K → K) (P : PlanParams K)
    (oracle : ℕ → Option (List (List ℕ))) :
    ∀ t, ∀ e ∈ (planLoop dist P oracle t).2, 0 ≤ e.remaining_pigs := by
  intro t
  induction t with
  | zero => exact initPlannerFarms_nonneg _ _
  | succ n ih => exact planDay_nonneg dist P (oracle n) n _ ih

/- The day's offer for a site is bounded by its remaining head (floor ≤ id). -/
lemma availIn_dayFarms_le (week : ℕ) (farms : List (PlannerFarm K))
    (hk : (plannerKeys farms).Nodup) (hpos : ∀ e ∈ farms, 0 ≤ e.remaining_pigs)
    (s : String) :
    ((availIn (dayFarms week farms) s : ℕ) : K) ≤ remainingOf farms s := by
  rcases hfind : (dayFarms week farms).find? (fun f => f.id = s) with _ | f
  · simpa [availIn, hfind] using remainingOf_nonneg farms hpos s
  · have hmem : f ∈ dayFarms week farms := List.mem_of_find?_eq_some hfind
    have hid : f.id = s := by simpa using List.find?_some hfind
    rcases List.mem_filterMap.mp hmem with ⟨e, he, heq⟩
    by_cases h1 : e.remaining_pigs ≤ 0
    · simp [h1] at heq
    · by_cases h2 : week ∈ e.weeks_visited
      · simp [h1, h2] at heq
      · simp only [if_neg h1, if_neg h2, Option.some_inj] at heq
        have hbid : e.base.id = s := by rw [← hid, ← heq]
        have hremeq : remainingOf farms s = e.remaining_pigs := by
          rw [remainingOf, ← hbid, find?_entry_of_mem farms hk e he]
          rfl
        have hav : f.available_pigs = (Int.floor e.remaining_pigs).toNat := by
          rw [← heq]
        rw [hremeq, availIn, hfind]
        simp only [Option.map_some', Option.getD_some]
        rw [hav]
        have h0 : (0 : K) ≤ e.remaining_pigs := le_of_lt (not_le.mp h1)
        have hfl : (0 : ℤ) ≤ Int.floor e.remaining_pigs := Int.floor_nonneg.mpr h0
        have hc : (((Int.floor e.remaining_pigs).toNat : ℤ) : K) ≤ e.remaining_pigs := by
          rw [Int.toNat_of_nonneg hfl]
          exact Int.floor_le _
        exact_mod_cast hc

lemma planDay_collect_bound (dist : Location K → Location K → K) (P : PlanParams K)
    (sol : Option (List (List ℕ))) (d : ℕ) (farms : List (PlannerFarm K))
    (hk : (plannerKeys farms).Nodup)
    (hpos : ∀ e ∈ farms, 0 ≤ e.remaining_pigs)
    (hsol : ∀ v, sol = some v → (v.flatten.filter (fun n => decide (0 < n))).Nodup)
    (s : String) :
    ((dayCollect s (planDay dist P sol d farms).1 : ℕ) : K) ≤ remainingOf farms s := by
  simp only [planDay]
  split
  · simpa [dayCollect, blankDay, trucksStops, collectFor] using
      remainingOf_nonneg farms hpos s
  · have hle : collectFor s (trucksStops (dayTrucks dist P sol d farms)) ≤
        availIn (dayFarms (d / P.planning_days_per_week) farms) s :=
      optimize_routes_for_day_collect dist (dayFarms (d / P.planning_days_per_week) farms)
        P.slaughterhouse P.truck_capacity P.slaughterhouse.daily_capacity 3 sol
        (dayFarms_ids_nodup _ farms hk) hsol s
    exact le_trans (by exact_mod_cast hle)
      (availIn_dayFarms_le (d / P.planning_days_per_week) farms hk hpos s)

/- Head collected for a site over the first t planned days. -/
def planCollected (dist : Location K → Location K → K) (P : PlanParams K)
    (oracle : ℕ → Option (List (List ℕ))) (t : ℕ) (s : String) : ℕ :=
  ((planLoop dist P oracle t).1.map (fun d => dayCollect s d)).sum

/- Under per-day solver soundness the clamp in applyStop never engages, so the
   inventory ledger telescopes exactly. -/
lemma planLoop_remaining_exact (dist : Location K → Location K → K) (P : PlanParams K)
    (oracle : ℕ → Option (List (List ℕ)))
    (hsol : ∀ d v, oracle d = some v →
      (v.flatten.filter (fun n => decide (0 < n))).Nodup) :
    ∀ t s, remainingOf (planLoop dist P oracle t).2 s +
        (planCollected dist P oracle t s : K) =
      remainingOf (initPlannerFarms P.avg_pig_weight_kg P.farms) s := by
  intro t
  induction t with
  | zero => intro s; simp [planCollected, planLoop]
  | succ n ih =>
    intro s
    have hbound := planDay_collect_bound dist P (oracle n) n (planLoop dist P oracle n).2
      (planLoop_keys_nodup dist P oracle n) (planLoop_nonneg dist P oracle n)
      (fun v hv => hsol n v hv) s
    have hpos := remainingOf_nonneg _ (planLoop_nonneg dist P oracle n) s
    have hstep := planDay_remaining_step dist P (oracle n) n (planLoop dist P oracle n).2 s
      hpos
    have hR : remainingOf (planLoop dist P oracle (n + 1)).2 s =
        remainingOf (planLoop dist P oracle n).2 s -
          (dayCollect s (planDay dist P (oracle n) n
            (planLoop dist P oracle n).2).1 : K) := by
      have h1 : (planLoop dist P oracle (n + 1)).2 =
          (planDay dist P (oracle n) n (planLoop dist P oracle n).2).2 := rfl
      rw [h1, hstep]
      exact max_eq_right (by linarith)
    have hcoll : planCollected dist P oracle (n + 1) s =
        planCollected dist P oracle n s +
          dayCollect s (planDay dist P (oracle n) n (planLoop dist P oracle n).2).1 := by
      simp [planCollected, planLoop]
    rw [hR, hcoll, ← ih]
    push_cast
    ring

lemma keys_sum_remaining (farms : List (PlannerFarm K)) (hk : (plannerKeys farms).Nodup) :
    ((plannerKeys farms).map (fun s => remainingOf farms s)).sum =
      (farms.map (fun e => e.remaining_pigs)).sum := by
  have hmap : (plannerKeys farms).map (fun s => remainingOf farms s) =
      farms.map (fun e => e.remaining_pigs) := by
    rw [plannerKeys, List.map_map]
    refine List.map_congr_left ?_
    intro e he
    simp only [Function.comp_apply]
    rw [remainingOf, find?_entry_of_mem farms hk e he]
    rfl
  rw [hmap]

lemma sum_map_add_nat {α : Type} (l : List α) (f g : α → ℕ) :
    (l.map (fun x => f x + g x)).sum = (l.map f).sum + (l.map g).sum := by
  induction l with
  | nil => rfl
  | cons a l ih =>
    simp only [List.map_cons, List.sum_cons, ih]
    omega

lemma sum_map_sub (l : List String) (f g : String → K) :
    (l.map (fun x => f x - g x)).sum = (l.map f).sum - (l.map g).sum := by
  induction l with
  | nil => simp
  | cons a l ih =>
    simp only [List.map_cons, List.sum_cons, ih]
    ring

lemma sum_ite_eq_of_mem (keys : List String) (hk : keys.Nodup) (a : String) (v : ℕ)
    (ha : a ∈ keys) : (keys.map (fun s => if a = s then v else 0)).sum = v := by
  induction keys with
  | nil => simp at ha
  | cons k rest ih =>
    simp only [List.nodup_cons] at hk
    rcases List.mem_cons.mp ha with rfl | hmem
    · have hzero : (rest.map (fun s => if a = s then v else 0)).sum = 0 := by
        refine List.sum_eq_zero ?_
        intro x hx
        rcases List.mem_map.mp hx with ⟨s, hs, rfl⟩
        rw [if_neg]
        intro h
        exact hk.1 (by rw [h]; exact hs)
      simp [hzero]
    · have hak : ¬ a = k := by
        intro h
        exact hk.1 (by rw [← h]; exact hmem)
      simp only [List.map_cons, List.sum_cons, if_neg hak, ih hk.2 hmem]
      omega

lemma collectFor_total (keys : List String) (hk : keys.Nodup) :
    ∀ (l : List RouteStop), (∀ x ∈ l, x.id ∈ keys) →
      (keys.map (fun s => collectFor s l)).sum = stopsSum l := by
  intro l
  induction l with
  | nil =>
    intro _
    have hz : (keys.map (fun s => collectFor s ([] : List RouteStop))).sum = 0 := by
      refine List.sum_eq_zero ?_
      intro x hx
      rcases List.mem_map.mp hx with ⟨s, _, rfl⟩
      rfl
    rw [hz]
    rfl
  | cons x l ihl =>
    intro hmem
    have hx : x.id ∈ keys := hmem x (List.mem_cons_self _ _)
    have hrest : ∀ y ∈ l, y.id ∈ keys := fun y hy => hmem y (List.mem_cons_of_mem _ hy)
    have hsplit : keys.map (fun s => collectFor s (x :: l)) =
        keys.map (fun s => (if x.id = s then x.pigs else 0) + collectFor s l) := by
      refine List.map_congr_left ?_
      intro s _
      simp [collectFor]
    rw [hsplit, sum_map_add_nat, sum_ite_eq_of_mem keys hk x.id x.pigs hx, ihl hrest]
    simp [stopsSum]

lemma sum_exchange_nat {α : Type} (keys : List String) :
    ∀ (L : List α) (F : α → String → ℕ),
      (L.map (fun d => (keys.map (fun s => F d s)).sum)).sum =
        (keys.map (fun s => (L.map (fun d => F d s)).sum)).sum := by
  intro L
  induction L with
  | nil =>
    intro F
    refine (List.sum_eq_zero ?_).symm
    intro x hx
    rcases List.mem_map.mp hx with ⟨s, _, rfl⟩
    rfl
  | cons d L ih =>
    intro F
    simp only [List.map_cons, List.sum_cons, ih F]
    exact (sum_map_add_nat keys _ _).symm

lemma planLoop_stop_ids (dist : Location K → Location K → K) (P : PlanParams K)
    (oracle : ℕ → Option (List (List ℕ))) :
    ∀ t, ∀ day ∈ (planLoop dist P oracle t).1, ∀ s ∈ dayStopIds day,
      s ∈ plannerKeys (initPlannerFarms P.avg_pig_weight_kg P.farms) := by
  intro t
  induction t with
  | zero => simp [planLoop]
  | succ n ih =>
    intro day hday
    simp only [planLoop] at hday
    rcases List.mem_append.mp hday with hm | hm
    · exact ih day hm
    · simp only [List.mem_singleton] at hm
      subst hm
      intro s hs
      have h1 := planDay_stop_ids dist P (oracle n) n (planLoop dist P oracle n).2 s hs
      have h2 := dayFarms_ids_sub _ _ s h1
      rw [planLoop_keys] at h2
      exact h2

lemma planLoop_total (dist : Location K → Location K → K) (P : PlanParams K)
    (oracle : ℕ → Option (List (List ℕ))) (t : ℕ) :
    ((planLoop dist P oracle t).1.map dayHead).sum =
      ((plannerKeys (initPlannerFarms P.avg_pig_weight_kg P.farms)).map
        (fun s => planCollected dist P oracle t s)).sum := by
  have hk := initPlannerFarms_keys_nodup P.avg_pig_weight_kg P.farms
  have hperday : ∀ day ∈ (planLoop dist P oracle t).1,
      dayHead day = ((plannerKeys (initPlannerFarms P.avg_pig_weight_kg P.farms)).map
        (fun s => dayCollect s day)).sum := by
    intro day hday
    have hids : ∀ x ∈ trucksStops day.trucks,
        x.id ∈ plannerKeys (initPlannerFarms P.avg_pig_weight_kg P.farms) := by
      intro x hx
      refine planLoop_stop_ids dist P oracle t day hday x.id ?_
      rw [dayStopIds_eq]
      exact List.mem_map.mpr ⟨x, hx, rfl⟩
    have h1 : dayHead day = stopsSum (trucksStops day.trucks) :=
      sumHeads_eq_stopsSum day.trucks
    rw [h1, ← collectFor_total _ hk _ hids]
    rfl
  rw [List.map_congr_left hperday]
  exact sum_exchange_nat _ _ _

lemma sum_zero_of_nonneg (l : List K) (h : ∀ x ∈ l, 0 ≤ x) (hs : l.sum = 0) :
    ∀ x ∈ l, x = 0 := by
  induction l with
  | nil => simp
  | cons a l ih =>
    simp only [List.sum_cons] at hs
    have ha := h a (List.mem_cons_self _ _)
    have hl : ∀ x ∈ l, 0 ≤ x := fun x hx => h x (List.mem_cons_of_mem _ hx)
    have hls : (0 : K) ≤ l.sum := List.sum_nonneg hl
    have ha0 : a = 0 := by linarith
    have hl0 : l.sum = 0 := by linarith
    intro x hx
    rcases List.mem_cons.mp hx with rfl | hx
    · exact ha0
    · exact ih hl hl0 x hx

/-- C7: every site's remaining head count stays nonnegative and never
increases from one planning day to the next; and — whenever each day's solver
solution visits each farm node at most once, as a VRP solution does (the
greedy fallback needs no side condition) — the total head collected over the
whole horizon (sum of stop.pigs over all days, trucks and stops) is at most
the sum of the sites' initial available_pigs, with equality only if every
site's inventory is exhausted at the end of the horizon. -/
theorem C7_inventory_conservation (dist : Location K → Location K → K)
    (oracle : ℕ → Option (List (List ℕ))) (req : OptimizationRequest K)
    (hsol : ∀ d v, oracle d = some v →
      (v.flatten.filter (fun n => decide (0 < n))).Nodup) :
    (∀ t s, 0 ≤ remainingOf (planLoop dist req.core oracle t).2 s) ∧
    (∀ t s, remainingOf (planLoop dist req.core oracle (t + 1)).2 s ≤
      remainingOf (planLoop dist req.core oracle t).2 s) ∧
    ((((optimize_routes dist oracle req).days.map dayHead).sum : K) ≤
      ((initPlannerFarms req.core.avg_pig_weight_kg req.core.farms).map
        (fun e => (e.base.available_pigs : K))).sum) ∧
    ((((optimize_routes dist oracle req).days.map dayHead).sum : K) =
        ((initPlannerFarms req.core.avg_pig_weight_kg req.core.farms).map
          (fun e => (e.base.available_pigs : K))).sum →
      ∀ s ∈ plannerKeys (initPlannerFarms req.core.avg_pig_weight_kg req.core.farms),
        remainingOf (planLoop dist req.core oracle req.core.num_days).2 s = 0) := by
  have hnonneg : ∀ t s, 0 ≤ remainingOf (planLoop dist req.core oracle t).2 s :=
    fun t s => remainingOf_nonneg _ (planLoop_nonneg dist req.core oracle t) s
  have hmono : ∀ t s, remainingOf (planLoop dist req.core oracle (t + 1)).2 s ≤
      remainingOf (planLoop dist req.core oracle t).2 s := by
    intro t s
    have hstep := planDay_remaining_step dist req.core (oracle t) t
      (planLoop dist req.core oracle t).2 s (hnonneg t s)
    have h1 : (planLoop dist req.core oracle (t + 1)).2 =
        (planDay dist req.core (oracle t) t (planLoop dist req.core oracle t).2).2 := rfl
    rw [h1, hstep]
    refine max_le (hnonneg t s) ?_
    have hc : (0 : K) ≤ (dayCollect s (planDay dist req.core (oracle t) t
        (planLoop dist req.core oracle t).2).1 : K) := Nat.cast_nonneg _
    linarith
  have hk := initPlannerFarms_keys_nodup req.core.avg_pig_weight_kg req.core.farms
  have hinit : ((initPlannerFarms req.core.avg_pig_weight_kg req.core.farms).map
      (fun e => (e.base.available_pigs : K))).sum =
      ((plannerKeys (initPlannerFarms req.core.avg_pig_weight_kg req.core.farms)).map
        (fun s => remainingOf (initPlannerFarms req.core.avg_pig_weight_kg
          req.core.farms) s)).sum := by
    rw [keys_sum_remaining _ hk]
    refine congrArg List.sum (List.map_congr_left ?_)
    intro e he
    rcases initPlannerFarms_mem _ _ e he with ⟨f, _, rfl⟩
    simp [initFarmEntry]
  have htot : (((optimize_routes dist oracle req).days.map dayHead).sum : K) =
      ((plannerKeys (initPlannerFarms req.core.avg_pig_weight_kg req.core.farms)).map
        (fun s => (planCollected dist req.core oracle req.core.num_days s : K))).sum := by
    have hdays : (optimize_routes dist oracle req).days =
        (planLoop dist req.core oracle req.core.num_days).1 := rfl
    rw [hdays,
      congrArg (fun n : ℕ => (n : K)) (planLoop_total dist req.core oracle
        req.core.num_days),
      Nat.cast_list_sum, List.map_map]
    rfl
  have hsite : ∀ s, (planCollected dist req.core oracle req.core.num_days s : K) =
      remainingOf (initPlannerFarms req.core.avg_pig_weight_kg req.core.farms) s -
        remainingOf (planLoop dist req.core oracle req.core.num_days).2 s := by
    intro s
    have hx := planLoop_remaining_exact dist req.core oracle hsol req.core.num_days s
    linarith
  have hsum : (((optimize_routes dist oracle req).days.map dayHead).sum : K) =
      ((initPlannerFarms req.core.avg_pig_weight_kg req.core.farms).map
        (fun e => (e.base.available_pigs : K))).sum -
      ((plannerKeys (initPlannerFarms req.core.avg_pig_weight_kg req.core.farms)).map
        (fun s => remainingOf (planLoop dist req.core oracle
          req.core.num_days).2 s)).sum := by
    rw [htot, hinit, List.map_congr_left (fun s _ => hsite s)]
    exact sum_map_sub _ _ _
  have hfin_nonneg : (0 : K) ≤
      ((plannerKeys (initPlannerFarms req.core.avg_pig_weight_kg req.core.farms)).map
        (fun s => remainingOf (planLoop dist req.core oracle
          req.core.num_days).2 s)).sum := by
    refine List.sum_nonneg ?_
    intro x hx
    rcases List.mem_map.mp hx with ⟨s, _, rfl⟩
    exact hnonneg req.core.num_days s
  refine ⟨hnonneg, hmono, by rw [hsum]; linarith, ?_⟩
  intro heq s hs
  rw [hsum] at heq
  have hzero : ((plannerKeys (initPlannerFarms req.core.avg_pig_weight_kg
      req.core.farms)).map
      (fun s => remainingOf (planLoop dist req.core oracle
        req.core.num_days).2 s)).sum = 0 := by
    linarith
  have hall := sum_zero_of_nonneg _ (fun x hx => by
      rcases List.mem_map.mp hx with ⟨u, _, rfl⟩
      exact hnonneg req.core.num_days u) hzero
  exact hall _ (List.mem_map.mpr ⟨s, hs, rfl⟩)

theorem C7_inventory_conservation_witness :
    (∀ d v, wOracle d = some v →
      (v.flatten.filter (fun n => decide (0 < n))).Nodup) ∧
    ((∀ t s, 0 ≤ remainingOf (planLoop wDist wReq.core wOracle t).2 s) ∧
     (∀ t s, remainingOf (planLoop wDist wReq.core wOracle (t + 1)).2 s ≤
       remainingOf (planLoop wDist wReq.core wOracle t).2 s) ∧
     ((((optimize_routes wDist wOracle wReq).days.map dayHead).sum : ℚ) ≤
       ((initPlannerFarms wReq.core.avg_pig_weight_kg wReq.core.farms).map
         (fun e => (e.base.available_pigs : ℚ))).sum) ∧
     ((((optimize_routes wDist wOracle wReq).days.map dayHead).sum : ℚ) =
         ((initPlannerFarms wReq.core.avg_pig_weight_kg wReq.core.farms).map
           (fun e => (e.base.available_pigs : ℚ))).sum →
       ∀ s ∈ plannerKeys (initPlannerFarms wReq.core.avg_pig_weight_kg wReq.core.farms),
         remainingOf (planLoop wDist wReq.core wOracle wReq.core.num_days).2 s = 0)) :=
  ⟨fun d v hv => by simp [wOracle] at hv,
   C7_inventory_conservation wDist wOracle wReq (fun d v hv => by simp [wOracle] at hv)⟩

/- ==================== C8: distance closure ==================== -/

/- Spec-side polyline over the emitted stops: legs depot → stop sites → depot,
   each site resolved by id in the farm list exactly as the greedy code does
   (`next(f for f in farms if f["id"] == ...)`). -/
def pathFrom (dist : Location K → Location K → K) (farms : List (Farm K)) :
    Location K → List RouteStop → K
  | _, [] => 0
  | cur, st :: rest =>
    let loc := ((findFarmById farms st.id).map (fun f => f.location)).getD cur
    dist cur loc + pathFrom dist farms loc rest

def lastLoc (farms : List (Farm K)) (sl : Location K) (stops : List RouteStop) :
    Location K :=
  ((stops.getLast?).bind (fun st => (findFarmById farms st.id).map
    (fun f => f.location))).getD sl

def routeClosure (dist : Location K → Location K → K) (farms : List (Farm K))
    (sl : Location K) (stops : List RouteStop) : K :=
  pathFrom dist farms sl stops + dist (lastLoc farms sl stops) sl

lemma pathFrom_nil (dist : Location K → Location K → K) (farms : List (Farm K))
    (cur : Location K) : pathFrom dist farms cur [] = 0 := rfl

lemma pathFrom_cons (dist : Location K → Location K → K) (farms : List (Farm K))
    (cur : Location K) (st : RouteStop) (rest : List RouteStop) :
    pathFrom dist farms cur (st :: rest) =
      dist cur (((findFarmById farms st.id).map (fun f => f.location)).getD cur) +
        pathFrom dist farms
          (((findFarmById farms st.id).map (fun f => f.location)).getD cur) rest := rfl

lemma lastLoc_cons (farms : List (Farm K)) (d : Location K) (x : RouteStop)
    (rest : List RouteStop)
    (hres : ∀ y ∈ rest, (findFarmById farms y.id).isSome) :
    lastLoc farms d (x :: rest) =
      lastLoc farms (((findFarmById farms x.id).map (fun f => f.location)).getD d) rest := by
  rcases rest with _ | ⟨y, rest'⟩
  · simp [lastLoc]
  · have hgl : (x :: y :: rest').getLast? = (y :: rest').getLast? :=
      List.getLast?_cons_cons
    obtain ⟨z, hz⟩ : ∃ z, (y :: rest').getLast? = some z := by
      rcases hq : (y :: rest').getLast? with _ | z
      · exact absurd (List.getLast?_eq_none_iff.mp hq) (by simp)
      · exact ⟨z, rfl⟩
    have hzmem : z ∈ y :: rest' := List.mem_of_getLast?_eq_some hz
    obtain ⟨g, hg⟩ := Option.isSome_iff_exists.mp (hres z hzmem)
    simp [lastLoc, hgl, hz, hg]

lemma pathFrom_snoc (dist : Location K → Location K → K) (farms : List (Farm K)) :
    ∀ (stops : List RouteStop) (cur : Location K) (st : RouteStop) (f : Farm K),
      findFarmById farms st.id = some f →
      (∀ y ∈ stops, (findFarmById farms y.id).isSome) →
      pathFrom dist farms cur (stops ++ [st]) =
        pathFrom dist farms cur stops + dist (lastLoc farms cur stops) f.location := by
  intro stops
  induction stops with
  | nil =>
    intro cur st f hf _
    simp [pathFrom, lastLoc, hf]
  | cons x rest ih =>
    intro cur st f hf hres
    have hresr : ∀ y ∈ rest, (findFarmById farms y.id).isSome :=
      fun y hy => hres y (List.mem_cons_of_mem _ hy)
    simp only [List.cons_append, pathFrom_cons]
    rw [ih _ st f hf hresr, lastLoc_cons farms cur x rest hresr]
    ring

/- Greedy distance invariant: every emitted truck carries the rounded closure
   of its own stop polyline, and the open route carries its open polyline. -/
def GreedyDistInv (dist : Location K → Location K → K) (farms : List (Farm K))
    (sl : Location K) (st : GreedyState K) : Prop :=
  (∀ t ∈ st.trucks, t.distance_km = round2 (routeClosure dist farms sl t.route)) ∧
  st.current_route_distance_km = pathFrom dist farms sl st.current_route ∧
  (∀ y ∈ st.current_route, (findFarmById farms y.id).isSome)

lemma greedyAddStop_dist (dist : Location K → Location K → K) (farms : List (Farm K))
    (sl : Location K) (farm : Farm K) (c : ℕ) (st : GreedyState K)
    (hfind : findFarmById farms farm.id = some farm)
    (h : GreedyDistInv dist farms sl st) :
    GreedyDistInv dist farms sl (greedyAddStop dist farms sl farm c st) := by
  obtain ⟨h1, h2, h3⟩ := h
  refine ⟨h1, ?_, ?_⟩
  · show st.current_route_distance_km + _ =
      pathFrom dist farms sl (st.current_route ++ [⟨farm.id, c⟩])
    rw [pathFrom_snoc dist farms st.current_route sl _ farm hfind h3, ← h2]
    congr 1
    split
    · rename_i last_stop heq
      split
      · rename_i lf heq2
        have hll : lastLoc farms sl st.current_route = lf.location := by
          simp [lastLoc, heq, heq2]
        rw [hll]
      · rename_i heq2
        obtain ⟨g, hg⟩ := Option.isSome_iff_exists.mp
          (h3 last_stop (List.mem_of_getLast?_eq_some heq))
        rw [heq2] at hg
        simp at hg
    · rename_i heq
      have hll : lastLoc farms sl st.current_route = sl := by simp [lastLoc, heq]
      rw [hll]
  · intro y hy
    rcases List.mem_append.mp hy with hm | hm
    · exact h3 y hm
    · simp only [List.mem_singleton] at hm
      subst hm
      simp [hfind]

lemma closeCurrentRoute_dist (dist : Location K → Location K → K) (farms : List (Farm K))
    (sl : Location K) (st : GreedyState K) (h : GreedyDistInv dist farms sl st) :
    GreedyDistInv dist farms sl (closeCurrentRoute dist farms sl st) := by
  obtain ⟨h1, h2, h3⟩ := h
  simp only [closeCurrentRoute]
  split
  · exact ⟨h1, by simp [pathFrom], by simp⟩
  · rename_i hemp
    refine ⟨?_, by simp [pathFrom], by simp⟩
    intro t ht
    rcases List.mem_append.mp ht with hm | hm
    · exact h1 t hm
    · simp only [List.mem_singleton] at hm
      subst hm
      show round2 _ = round2 (routeClosure dist farms sl st.current_route)
      rw [routeClosure, h2]
      congr 1
      congr 1
      split
      · rename_i last_stop heq
        split
        · rename_i lf heq2
          have hll : lastLoc farms sl st.current_route = lf.location := by
            simp [lastLoc, heq, heq2]
          rw [hll]
        · rename_i heq2
          obtain ⟨g, hg⟩ := Option.isSome_iff_exists.mp
            (h3 last_stop (List.mem_of_getLast?_eq_some heq))
          rw [heq2] at hg
          simp at hg
      · rename_i heq
        exact absurd (List.getLast?_eq_none_iff.mp heq) (by simpa using hemp)

lemma greedyFarmLoop_dist (dist : Location K → Location K → K) (farms : List (Farm K))
    (sl : Location K) (Q D : ℕ) (farm : Farm K)
    (hfind : findFarmById farms farm.id = some farm) :
    ∀ (fuel pigs : ℕ) (st : GreedyState K), GreedyDistInv dist farms sl st →
      GreedyDistInv dist farms sl
        (greedyFarmLoop dist farms sl Q D farm fuel pigs st) := by
  intro fuel
  induction fuel with
  | zero => intro pigs st h; simpa [greedyFarmLoop] using h
  | succ n ih =>
    intro pigs st h
    simp only [greedyFarmLoop]
    split
    · exact h
    · set c := min pigs (min (Q - st.current_load) (D - st.total_collected)) with hc
      set st1 := if 0 < c then greedyAddStop dist farms sl farm c st else st with hst1
      set st2 := if Q ≤ st1.current_load ∨ D ≤ st1.total_collected then
          closeCurrentRoute dist farms sl st1 else st1 with hst2
      have hi1 : GreedyDistInv dist farms sl st1 := by
        rw [hst1]
        split
        · exact greedyAddStop_dist dist farms sl farm c st hfind h
        · exact h
      have hi2 : GreedyDistInv dist farms sl st2 := by
        rw [hst2]
        split
        · exact closeCurrentRoute_dist dist farms sl st1 hi1
        · exact hi1
      split
      · exact hi2
      · exact ih _ _ hi2

lemma greedy_route_assignment_dist (dist : Location K → Location K → K)
    (farms : List (Farm K)) (sl : Location K) (Q D : ℕ)
    (hk : (farms.map (fun f => f.id)).Nodup) :
    ∀ t ∈ (greedy_route_assignment dist farms sl Q D).1,
      t.distance_km = round2 (routeClosure dist farms sl t.route) := by
  simp only [greedy_route_assignment]
  have h0 : GreedyDistInv dist farms sl
      ({ trucks := [], current_truck_id := 1, current_route := [],
         current_route_distance_km := 0, current_load := 0, total_collected := 0,
         total_distance_km := 0 } : GreedyState K) :=
    ⟨by simp, by simp [pathFrom], by simp⟩
  have hst : GreedyDistInv dist farms sl
      ((farms.insertionSort (greedyOrder dist sl)).foldl
        (fun st farm =>
          greedyFarmLoop dist farms sl Q D farm
            (2 * farm.available_pigs + 2) farm.available_pigs st)
        { trucks := [], current_truck_id := 1, current_route := [],
          current_route_distance_km := 0, current_load := 0, total_collected := 0,
          total_distance_km := 0 }) := by
    refine foldl_preserve_mem _ (GreedyDistInv dist farms sl) _ ?_ _ h0
    intro st f hf hst
    have hfid : findFarmById farms f.id = some f :=
      find?_farm_of_mem farms hk f ((List.perm_insertionSort _ farms).subset hf)
    exact greedyFarmLoop_dist dist farms sl Q D f hfid _ _ st hst
  exact (closeCurrentRoute_dist dist farms sl _ hst).1

/-- C8 (amended): on the greedy fallback path every emitted truck's distance_km
is exactly the 2-decimal rounding of the geodesic polyline depot → its emitted
stops → depot (sites resolved by id in the day's active farm list), hence
within 0.02 km of that polyline; on the solver-extraction path the recorded
distance follows every node the solver visited, so pass-through nodes (beyond
the stop cap or yielding no pickup) push distance_km away from the polyline
over the emitted stops by more than 0.02 km (see the counterexample). -/
theorem C8_distance_closure_greedy_path (dist : Location K → Location K → K)
    (farms : List (Farm K)) (sl : Slaughterhouse K) (Q D S : ℕ)
    (hk : (farms.map (fun f => f.id)).Nodup) :
    ∀ t ∈ (optimize_routes_for_day dist farms sl Q D S none).1,
      t.distance_km = round2 (routeClosure dist
        (farms.filter (fun f => 0 < f.available_pigs)) sl.location t.route) ∧
      |t.distance_km - routeClosure dist
        (farms.filter (fun f => 0 < f.available_pigs)) sl.location t.route| ≤ 2 / 100 := by
  have hact : ((farms.filter (fun f => 0 < f.available_pigs)).map
      (fun f => f.id)).Nodup :=
    hk.sublist ((List.filter_sublist farms).map (fun f => f.id))
  simp only [optimize_routes_for_day]
  split
  · simp
  · split
    · simp
    · intro t ht
      have heq := greedy_route_assignment_dist dist _ sl.location Q D hact t ht
      refine ⟨heq, ?_⟩
      obtain ⟨hlo, hhi⟩ := round2_bounds (routeClosure dist
        (farms.filter (fun f => 0 < f.available_pigs)) sl.location t.route)
      rw [heq, abs_le]
      constructor <;> linarith

theorem C8_distance_closure_greedy_path_witness :
    (([c2Farm "A", c2Farm "B"].map (fun f => f.id)).Nodup) ∧
    (∀ t ∈ (optimize_routes_for_day wDist [c2Farm "A", c2Farm "B"]
        (⟨"S", "S", ⟨0, 0⟩, 1000, 10000⟩ : Slaughterhouse ℚ) 181 1000 3 none).1,
      t.distance_km = round2 (routeClosure wDist
        ([c2Farm "A", c2Farm "B"].filter (fun f => 0 < f.available_pigs))
        (⟨0, 0⟩ : Location ℚ) t.route) ∧
      |t.distance_km - routeClosure wDist
        ([c2Farm "A", c2Farm "B"].filter (fun f => 0 < f.available_pigs))
        (⟨0, 0⟩ : Location ℚ) t.route| ≤ 2 / 100) :=
  ⟨by decide,
   C8_distance_closure_greedy_path wDist [c2Farm "A", c2Farm "B"]
     (⟨"S", "S", ⟨0, 0⟩, 1000, 10000⟩ : Slaughterhouse ℚ) 181 1000 3 (by decide)⟩

/- Haversine on the equator: with both latitudes 0 the distance is the
   subtended longitude arc, R times |delta lon| in radians. -/
lemma hav_equator (a b : ℝ) (hab : a ≤ b)
    (h : (b - a) * Real.pi / 180 / 2 ≤ Real.pi / 2) :
    haversine_distance 0 a 0 b = 6371 * ((b - a) * Real.pi / 180) := by
  have hpi := Real.pi_pos
  simp only [haversine_distance]
  have e1 : ((0 : ℝ) - 0) * Real.pi / 180 = 0 := by ring
  have e2 : (0 : ℝ) * Real.pi / 180 = 0 := by ring
  rw [e1, e2]
  set θ := (b - a) * Real.pi / 180 / 2 with hθ
  have hθ0 : 0 ≤ θ := by
    rw [hθ]
    have hba : 0 ≤ b - a := sub_nonneg.mpr hab
    positivity
  have hθpi : θ ≤ Real.pi := le_trans h (by linarith)
  have hsin : 0 ≤ Real.sin θ := Real.sin_nonneg_of_nonneg_of_le_pi hθ0 hθpi
  have hzero : ((0 : ℝ) / 2) = 0 := by norm_num
  rw [hzero, Real.sin_zero, Real.cos_zero]
  have hsimp : (0 : ℝ) ^ 2 + 1 * 1 * Real.sin θ ^ 2 = Real.sin θ ^ 2 := by ring
  rw [hsimp, Real.sqrt_sq hsin, Real.arcsin_sin (by linarith) h, hθ]
  ring

lemma hav_equator_symm (a b : ℝ) :
    haversine_distance 0 a 0 b = haversine_distance 0 b 0 a := by
  simp only [haversine_distance]
  have h1 : (b - a) * Real.pi / 180 / 2 = -((a - b) * Real.pi / 180 / 2) := by ring
  rw [h1, Real.sin_neg, neg_sq]

/- Counterexample geometry: depot and two farms on the equator at longitudes
   0, 1 and 2 degrees; daily capacity 1 makes the second visited node a
   pass-through (nothing collected, distance still accumulated). -/
def c8L0 : Location ℝ := ⟨0, 0⟩

def c8L1 : Location ℝ := ⟨0, 1⟩

def c8L2 : Location ℝ := ⟨0, 2⟩

def c8F1 : Farm ℝ :=
  { id := "F1", name := "F1", location := c8L1, available_pigs := 1, max_capacity := 10,
    avg_weight_kg := none }

def c8F2 : Farm ℝ :=
  { id := "F2", name := "F2", location := c8L2, available_pigs := 5, max_capacity := 10,
    avg_weight_kg := none }

def c8Sl : Slaughterhouse ℝ :=
  { id := "S", name := "S", location := c8L0, daily_capacity := 1, max_capacity := 100 }

/-- C8 counterexample: on the solver-extraction path, the emitted truck visits
farm node 2 as a pass-through (the day cap is already met), so its recorded
distance_km is the rounded length of depot → F1 → F2 → depot while its emitted
stops are only [F1]; with the source's haversine distance this misses the
polyline depot → F1 → depot by far more than the 0.02 km rounding allowance. -/
theorem C8_distance_closure_counterexample :
    ∃ t ∈ (optimize_routes_for_day haversineLoc [c8F1, c8F2] c8Sl 10 1 3
        (some [[1, 2]])).1,
      2 / 100 < |t.distance_km - routeClosure haversineLoc
        ([c8F1, c8F2].filter (fun f => 0 < f.available_pigs)) c8Sl.location t.route| := by
  have hpi := Real.pi_pos
  have hpi3 : (3 : ℝ) < Real.pi := Real.pi_gt_three
  have h01 : haversineLoc c8L0 c8L1 = 6371 * ((1 - 0) * Real.pi / 180) := by
    have h := hav_equator 0 1 (by norm_num) (by linarith)
    simpa [haversineLoc, c8L0, c8L1] using h
  have h12 : haversineLoc c8L1 c8L2 = 6371 * ((2 - 1) * Real.pi / 180) := by
    have h := hav_equator 1 2 (by norm_num) (by linarith)
    simpa [haversineLoc, c8L1, c8L2] using h
  have h20 : haversineLoc c8L2 c8L0 = 6371 * ((2 - 0) * Real.pi / 180) := by
    have h := (hav_equator_symm 2 0).trans (hav_equator 0 2 (by norm_num) (by linarith))
    simpa [haversineLoc, c8L2, c8L0] using h
  have h10 : haversineLoc c8L1 c8L0 = 6371 * ((1 - 0) * Real.pi / 180) := by
    have h := (hav_equator_symm 1 0).trans (hav_equator 0 1 (by norm_num) (by linarith))
    simpa [haversineLoc, c8L1, c8L0] using h
  have hres : (optimize_routes_for_day haversineLoc [c8F1, c8F2] c8Sl 10 1 3
      (some [[1, 2]])).1 =
      [{ id := 1, route := [⟨"F1", 1⟩],
         distance_km := round2 ((haversineLoc c8L0 c8L1 * 1000 +
           haversineLoc c8L1 c8L2 * 1000 + haversineLoc c8L2 c8L0 * 1000) / 1000) }] := by
    norm_num [optimize_routes_for_day, extract_solver_routes, extractRoutesGo,
      extractVehicle, extractNodeStep, matrixMeters, List.get?, c8F1, c8F2, c8Sl]
  have hclose : routeClosure haversineLoc
      ([c8F1, c8F2].filter (fun f => 0 < f.available_pigs)) c8Sl.location
      [(⟨"F1", 1⟩ : RouteStop)] =
      haversineLoc c8L0 c8L1 + haversineLoc c8L1 c8L0 := by
    norm_num [routeClosure, pathFrom_cons, pathFrom_nil, lastLoc, findFarmById,
      c8F1, c8F2, c8Sl]
  refine ⟨_, by rw [hres]; exact List.mem_singleton_self _, ?_⟩
  show 2 / 100 < |round2 ((haversineLoc c8L0 c8L1 * 1000 + haversineLoc c8L1 c8L2 * 1000 +
    haversineLoc c8L2 c8L0 * 1000) / 1000) - routeClosure haversineLoc
    ([c8F1, c8F2].filter (fun f => 0 < f.available_pigs)) c8Sl.location
    [(⟨"F1", 1⟩ : RouteStop)]|
  rw [hclose, h01, h12, h20, h10]
  have hA : (6371 * ((1 - 0) * Real.pi / 180) * 1000 + 6371 * ((2 - 1) * Real.pi / 180) * 1000 +
      6371 * ((2 - 0) * Real.pi / 180) * 1000) / 1000 = 4 * (6371 * Real.pi / 180) := by
    ring
  have hC : 6371 * ((1 - 0) * Real.pi / 180) + 6371 * ((1 - 0) * Real.pi / 180) =
      2 * (6371 * Real.pi / 180) := by
    ring
  rw [hA, hC]
  obtain ⟨hlo, hhi⟩ := round2_bounds (4 * (6371 * Real.pi / 180))
  refine lt_of_lt_of_le ?_ (le_abs_self _)
  linarith

end PigChain
